import Mathlib

/-!
Verification development for the libimd IMD (ImageDisk) codec library.

The definitions below are shallow embeddings of the C sources
(src/libimd.c, src/libimd.h, src/libimdf.c, src/libimdchk.c).
Machine bytes are modelled as Nat values (0..255 where relevant),
C int error codes as Int, fallible operations as Except or Option,
and the per-track sector data buffer (a flat buffer of
num_sectors * sector_size bytes in C) as a list of sector-sized
chunks, chunk i holding the bytes at offsets
i * sector_size .. (i+1) * sector_size - 1 of the C buffer.
-/

namespace LibImd

/-- Error codes from libimd.h. -/
def IMD_ERR_SECTOR_NOT_FOUND : Int := -10

def IMD_ERR_TRACK_NOT_FOUND : Int := -11

def IMD_ERR_READ_ERROR : Int := -12

def IMD_ERR_WRITE_ERROR : Int := -13

def IMD_ERR_SEEK_ERROR : Int := -14

def IMD_ERR_INVALID_ARG : Int := -15

def IMD_ERR_BUFFER_TOO_SMALL : Int := -16

def IMD_ERR_SIZE_MISMATCH : Int := -17

def IMD_ERR_UNAVAILABLE : Int := -18

def IMD_ERR_ALLOC : Int := -19

/-- Sector size lookup table from libimd.c: bytes = 128 << code. -/
def SECTOR_SIZE_LOOKUP : List Nat := [128, 256, 512, 1024, 2048, 4096, 8192]

/-- Macro IMD_SDR_HAS_DATA from libimd.h: type in 0x01..0x08. -/
def IMD_SDR_HAS_DATA (t : Nat) : Bool := 1 ≤ t && t ≤ 8

/-- Macro IMD_SDR_IS_COMPRESSED from libimd.h: even and nonzero. -/
def IMD_SDR_IS_COMPRESSED (t : Nat) : Bool := t % 2 = 0 && t ≠ 0

/-- Two's-complement bitwise AND of a promoted C int with a
nonnegative mask.  A nonnegative int is AND-ed directly; a negative
int -(m+1) has the two's-complement bit pattern NOT m, so the AND
keeps exactly the mask bits not present in m, written with truncated
subtraction so the kernel can evaluate it.  The lemma cIntAnd_two_pow
below identifies this with Mathlib's Int.land for the single-bit
masks in use. -/
def cIntAnd (x : Int) (mask : Nat) : Nat :=
  match x with
  | .ofNat m => m &&& mask
  | .negSucc m => mask - (mask &&& m)

/-- Macro IMD_SDR_HAS_DAM from libimd.h: the C expression is
the value (type - 1) & 0x02 computed after integer promotion of the
uint8_t argument to int, so at type = 0 it is (-1) & 2 = 2. -/
def IMD_SDR_HAS_DAM (t : Nat) : Bool := cIntAnd ((t : Int) - 1) 2 ≠ 0

/-- Macro IMD_SDR_HAS_ERR from libimd.h: the C expression is
the promoted-int computation (type - 1) & 0x04. -/
def IMD_SDR_HAS_ERR (t : Nat) : Bool := cIntAnd ((t : Int) - 1) 4 ≠ 0

/-- In-memory track record, mirroring struct ImdTrackInfo of libimd.h.
The data field is the flat C byte buffer cut into num_sectors chunks of
sector_size bytes each: chunk i holds bytes i * sector_size ..
(i+1) * sector_size - 1. -/
structure ImdTrackInfo where
  mode : Nat
  cyl : Nat
  head : Nat
  hflag : Nat
  numSectors : Nat
  sectorSizeCode : Nat
  sectorSize : Nat
  smap : List Nat
  cmap : List Nat
  hmap : List Nat
  sflag : List Nat
  data : List (List Nat)
  dataSize : Nat
  loaded : Bool
deriving Repr, DecidableEq

instance : Inhabited ImdTrackInfo :=
  ⟨⟨0, 0, 0, 0, 0, 0, 0, [], [], [], [], [], 0, false⟩⟩

/-- Function imd_is_uniform from libimd.c restricted to its boolean
result: 1 when the buffer is empty or all bytes equal the first. -/
def imd_is_uniform (data : List Nat) : Bool :=
  match data with
  | [] => true
  | b :: rest => rest.all (· = b)

/-- Well-formedness of a loaded track: the structural invariants that
hold for every track produced by imd_load_track (field lengths agree
with num_sectors, sector size comes from the lookup table, byte-valued
fields are bytes). -/
def WFTrack (t : ImdTrackInfo) : Prop :=
  t.loaded = true ∧
  t.sectorSizeCode < 7 ∧
  t.sectorSize = SECTOR_SIZE_LOOKUP.getD t.sectorSizeCode 0 ∧
  t.numSectors ≤ 256 ∧
  t.smap.length = t.numSectors ∧
  t.cmap.length = t.numSectors ∧
  t.hmap.length = t.numSectors ∧
  t.sflag.length = t.numSectors ∧
  t.data.length = t.numSectors ∧
  (∀ c ∈ t.data, c.length = t.sectorSize) ∧
  (∀ v ∈ t.smap, v < 256)

/-- Write options from libimd.h (struct ImdWriteOpts).  The C int
fields are modelled on their operative ranges: compression_mode is
compared against 1 and 2 with every other value treated as as-read,
interleave_factor uses the sentinels 0 (as read) and 255 (best guess). -/
structure ImdWriteOpts where
  compressionMode : Nat
  forceNonBad : Bool
  forceNonDeleted : Bool
  tmode : List Nat
  interleaveFactor : Nat
deriving Repr, DecidableEq

/-- Identity-map default write options used inside libimdf.c
(default_libimdf_write_opts). -/
def default_libimdf_write_opts : ImdWriteOpts :=
  ⟨0, false, false, [0, 1, 2, 3, 4, 5], 0⟩

/-! ## Interleave engine (libimd.c lines 1187-1347) -/

/-- Fold that builds the sector_pos array of
imd_calculate_best_interleave: a 256-entry table initialised to the
invalid marker 0xFF, then sector_pos[smap[i]] = i for i ascending, so
a later duplicate overwrites an earlier position entry. -/
def sectorPosTable (smap : List Nat) : List Nat :=
  (smap.enum).foldl (fun tab p => tab.set p.2 p.1) (List.replicate 256 255)

/-- Physical distance between two physical positions as computed in
imd_calculate_best_interleave: forward distance with wrap-around. -/
def interleaveDistance (n pa pb : Nat) : Nat :=
  if pb ≥ pa then pb - pa else n - (pa - pb)

/-- Number of consecutive sorted-logical-ID pairs (including the
last-to-first wrap) whose physical distance is d, as tallied by
imd_calculate_best_interleave.  The C tally array has uint8_t cells,
so the count wraps modulo 256. -/
def interleaveTally (t : ImdTrackInfo) (d : Nat) : Nat :=
  let n := t.numSectors
  let tab := sectorPosTable t.smap
  let sorted := List.insertionSort (· ≤ ·) t.smap
  (((List.range n).filter (fun i =>
    let a := sorted.getD i 0
    let b := sorted.getD ((i + 1) % n) 0
    let pa := tab.getD a 255
    let pb := tab.getD b 255
    pa ≠ 255 && pb ≠ 255 &&
      (let dist := interleaveDistance n pa pb
       0 < dist && dist < n && dist = d))).length) % 256

/-- The final scan of imd_calculate_best_interleave: walk distances
1 .. n-1 keeping the first distance whose tally strictly exceeds the
running maximum (best starts at 1 with running maximum 0). -/
def bestScan (f : Nat → Nat) (n : Nat) : Nat :=
  ((List.range' 1 (n - 1)).foldl
    (fun bm i => if f i > bm.2 then (i, f i) else bm) ((1 : Nat), (0 : Nat))).1

/-- Function imd_calculate_best_interleave from libimd.c. -/
def imd_calculate_best_interleave (t : ImdTrackInfo) : Nat :=
  if t.numSectors < 2 then 1
  else bestScan (interleaveTally t) t.numSectors

/-- Cyclic search for the next unused physical slot, modelling the
while loop of imd_apply_interleave step 3.  The fuel argument bounds
the walk; fuel = n always suffices because a free slot exists. -/
def findFreePos (used : List Bool) (cur : Nat) : Nat → Nat
  | 0 => cur
  | fuel + 1 =>
    if used.getD cur false then findFreePos used ((cur + 1) % used.length) fuel
    else cur

/-- Sequence of physical slots chosen by the placement loop of
imd_apply_interleave: place count sectors, each at the next free slot
found from cur, then advance the target by k modulo n. -/
def placeList (n k : Nat) (used : List Bool) (cur : Nat) : Nat → List Nat
  | 0 => []
  | count + 1 =>
    let p := findFreePos used cur n
    p :: placeList n k (used.set p true) ((p + k) % n) count

/-- Write vals at the given positions (in order) into init, modelling
the in-place stores of imd_apply_interleave step 4 into the track
arrays (which still hold their original contents elsewhere). -/
def scatter : List Nat → List α → List α → List α
  | p :: ps, v :: vs, init => scatter ps vs (init.set p v)
  | _, _, init => init

/-- Ascending sort of the sector map (the C code uses a bubble sort;
any comparison sort of a list of naturals yields the same list). -/
def interleaveSorted (t : ImdTrackInfo) : List Nat :=
  List.insertionSort (· ≤ ·) t.smap

/-- The logical_to_physical table of imd_apply_interleave:
logical_to_physical[i] is the first original physical index holding
the i-th logically smallest sector ID. -/
def interleaveL2P (t : ImdTrackInfo) : List Nat :=
  (interleaveSorted t).map (fun v => t.smap.indexOf v)

/-- The physical slots used by imd_apply_interleave, in logical order:
slot for logical index i advances by the interleave factor modulo n,
skipping slots already taken. -/
def interleavePositions (t : ImdTrackInfo) (k : Nat) : List Nat :=
  placeList t.numSectors k (List.replicate t.numSectors false) 0 t.numSectors

/-- Function imd_apply_interleave from libimd.c: reorder smap, cmap,
hmap, sflag and the sector data chunks in place.  Fails with
IMD_ERR_INVALID_ARG when the track is not loaded, has no data, has
fewer than two sectors, or the factor is below 1, and with
IMD_ERR_SECTOR_NOT_FOUND when a sorted ID is missing from smap
(impossible in fact, kept from the source). -/
def imd_apply_interleave (t : ImdTrackInfo) (k : Nat) : Except Int ImdTrackInfo :=
  if !t.loaded || t.data.isEmpty || t.numSectors < 2 || k < 1 then
    .error IMD_ERR_INVALID_ARG
  else
    let n := t.numSectors
    let l2p := interleaveL2P t
    if l2p.any (fun j => j ≥ n) then .error IMD_ERR_SECTOR_NOT_FOUND
    else
      let ps := interleavePositions t k
      .ok { t with
        smap := scatter ps (l2p.map (fun j => t.smap.getD j 0)) t.smap
        cmap := scatter ps (l2p.map (fun j => t.cmap.getD j 0)) t.cmap
        hmap := scatter ps (l2p.map (fun j => t.hmap.getD j 0)) t.hmap
        sflag := scatter ps (l2p.map (fun j => t.sflag.getD j 0)) t.sflag
        data := scatter ps (l2p.map (fun j => t.data.getD j [])) t.data }

/-! ## Track write pipeline (libimd.c lines 1349-1577) -/

/-- Per-sector output flag decision of imd_write_track_imd (lines
1409-1489): unavailable input stays unavailable; otherwise a base type
is chosen from the compression mode and the uniformity of the sector
bytes, and DAM/ERR status bits are carried over unless suppressed by
the forcing options. -/
def sectorFinalFlag (opts : ImdWriteOpts) (sectorSize : Nat)
    (originalFlag : Nat) (chunk : List Nat) : Nat :=
  if originalFlag = 0 then 0
  else
    let isUniformSector := sectorSize > 0 && imd_is_uniform chunk
    let base : Nat :=
      match opts.compressionMode with
      | 1 => if isUniformSector then 2 else 1
      | 2 => 1
      | _ =>
        if IMD_SDR_IS_COMPRESSED originalFlag then
          (if isUniformSector then 2 else 1)
        else 1
    let dam := IMD_SDR_HAS_DAM originalFlag && !opts.forceNonDeleted
    let err := IMD_SDR_HAS_ERR originalFlag && !opts.forceNonBad
    if base = 1 then
      if dam && err then 7 else if err then 5 else if dam then 3 else 1
    else
      if dam && err then 8 else if err then 6 else if dam then 4 else 2

/-- Interleave stage of imd_write_track_imd: with a nonzero interleave
option and more than one sector, resolve the best-guess sentinel and
apply the factor to a working copy of the track. -/
def trackToWrite (t : ImdTrackInfo) (opts : ImdWriteOpts) : Except Int ImdTrackInfo :=
  if opts.interleaveFactor ≠ 0 && t.numSectors > 1 then
    let k := if opts.interleaveFactor = 255 then imd_calculate_best_interleave t
             else opts.interleaveFactor
    imd_apply_interleave t k
  else .ok t

/-- Sequence of Sector Data Record flag bytes emitted by
imd_write_track_imd, one per sector in physical order.  Returns the
error of the interleave stage or the data-consistency check when the
write aborts before emitting. -/
def imd_write_track_imd_flags (t : ImdTrackInfo) (opts : ImdWriteOpts) :
    Except Int (List Nat) :=
  if !t.loaded then .error IMD_ERR_INVALID_ARG
  else
    match trackToWrite t opts with
    | .error e => .error e
    | .ok tw =>
      if tw.sectorSize > 0 && tw.data.length < tw.numSectors then
        .error IMD_ERR_INVALID_ARG
      else
        .ok ((List.range tw.numSectors).map (fun i =>
          sectorFinalFlag opts tw.sectorSize (tw.sflag.getD i 0)
            (tw.data.getD i [])))

/-! ## Byte-stream primitives

The C code reads from a FILE stream; we model the remaining input as a
list of byte values.  A failed read leaves the model stream untouched,
matching the best-effort fseek restoration in the source. -/

/-- Read one byte (fgetc): none models EOF. -/
def readByte (s : List Nat) : Option (Nat × List Nat) :=
  match s with
  | [] => none
  | b :: r => some (b, r)

/-- Read exactly n bytes (read_bytes with a full-count check). -/
def readN (n : Nat) (s : List Nat) : Option (List Nat × List Nat) :=
  if n ≤ s.length then some (s.take n, s.drop n) else none

/-- Outcome of a track-level read: clean EOF before the first header
byte, an error code, or a parsed track plus the rest of the stream. -/
inductive TrackReadResult where
  | eof
  | err (code : Int)
  | ok (t : ImdTrackInfo) (rest : List Nat)
deriving Repr, DecidableEq

/-- Map-reading phase of imd_load_track: smap always, cmap when hflag
bit 0x80 is set (otherwise filled with the cylinder number), hmap when
bit 0x40 is set (otherwise filled with the head number).  Skipped
entirely when there are no sectors. -/
def readMapsLoad (nsec cyl head hflag : Nat) (s : List Nat) :
    Option (List Nat × List Nat × List Nat × List Nat) :=
  if nsec = 0 then some ([], [], [], s)
  else do
    let (smap, s1) ← readN nsec s
    let (cmap, s2) ←
      if hflag &&& 128 ≠ 0 then readN nsec s1
      else some (List.replicate nsec cyl, s1)
    let (hmap, s3) ←
      if hflag &&& 64 ≠ 0 then readN nsec s2
      else some (List.replicate nsec head, s2)
    some (smap, cmap, hmap, s3)

/-- Sector-data phase of imd_load_track: one flag byte per sector,
then no body for 0x00 (buffer filled with the caller fill byte), one
fill byte expanded to sector_size bytes for compressed codes, and
sector_size raw bytes for normal codes.  Any other flag byte or short
read is a read error (none). -/
def loadSectors (sectorSize fillByte : Nat) :
    Nat → List Nat → Option (List Nat × List (List Nat) × List Nat)
  | 0, s => some ([], [], s)
  | count + 1, s => do
    let (ty, s1) ← readByte s
    if IMD_SDR_HAS_DATA ty then
      if IMD_SDR_IS_COMPRESSED ty then do
        let (fv, s2) ← readByte s1
        let (fs, cs, r) ← loadSectors sectorSize fillByte count s2
        some (ty :: fs, List.replicate sectorSize fv :: cs, r)
      else do
        let (bytes, s2) ← readN sectorSize s1
        let (fs, cs, r) ← loadSectors sectorSize fillByte count s2
        some (ty :: fs, bytes :: cs, r)
    else if ty = 0 then do
      let (fs, cs, r) ← loadSectors sectorSize fillByte count s1
      some (ty :: fs, List.replicate sectorSize fillByte :: cs, r)
    else none

/-- Function imd_load_track from libimd.c on a byte stream: parse the
5-byte track header, validate mode, head and size code, read the maps
(materialising cmap/hmap defaults) and the sector data records. -/
def imd_load_track (fillByte : Nat) (s : List Nat) : TrackReadResult :=
  match s with
  | [] => .eof
  | mode :: cyl :: headByte :: nsec :: ssize :: s1 =>
    let head := headByte &&& 15
    let hflag := headByte &&& 240
    if mode ≥ 6 || head > 1 || ssize ≥ 7 then .err IMD_ERR_READ_ERROR
    else if nsec > 256 then .err IMD_ERR_READ_ERROR
    else
      let sectorSize := SECTOR_SIZE_LOOKUP.getD ssize 0
      match readMapsLoad nsec cyl head hflag s1 with
      | none => .err IMD_ERR_READ_ERROR
      | some (smap, cmap, hmap, s2) =>
        match loadSectors sectorSize fillByte nsec s2 with
        | none => .err IMD_ERR_READ_ERROR
        | some (sflags, chunks, s3) =>
          .ok { mode := mode, cyl := cyl, head := head, hflag := hflag,
                numSectors := nsec, sectorSizeCode := ssize,
                sectorSize := sectorSize, smap := smap, cmap := cmap,
                hmap := hmap, sflag := sflags, data := chunks,
                dataSize := nsec * sectorSize, loaded := true } s3
  | _ :: _ => .err IMD_ERR_READ_ERROR

/-- Flag-reading and data-skipping phase of
imd_read_track_header_and_flags: record each sector flag byte and skip
its body (nothing, one fill byte, or sector_size bytes); an unknown
flag or a short skip is a read error. -/
def readFlagsSkip (sectorSize : Nat) :
    Nat → List Nat → Option (List Nat × List Nat)
  | 0, s => some ([], s)
  | count + 1, s => do
    let (ty, s1) ← readByte s
    let skipLen ←
      if ty = 0 then some 0
      else if IMD_SDR_IS_COMPRESSED ty then some 1
      else if ty = 1 || ty = 3 || ty = 5 || ty = 7 then some sectorSize
      else none
    let (_, s2) ← readN skipLen s1
    let (fs, r) ← readFlagsSkip sectorSize count s2
    some (ty :: fs, r)

/-- Map-reading phase of the scan variants
(imd_read_track_header_and_flags): smap always, cmap/hmap only when
their hflag bits are set; absent maps keep the zero bytes left by the
initial memset of the track structure. -/
def readMapsScan (nsec hflag : Nat) (s : List Nat) :
    Option (List Nat × List Nat × List Nat × List Nat) :=
  if nsec = 0 then some ([], [], [], s)
  else do
    let (smap, s1) ← readN nsec s
    let (cmap, s2) ←
      if hflag &&& 128 ≠ 0 then readN nsec s1
      else some (List.replicate nsec 0, s1)
    let (hmap, s3) ←
      if hflag &&& 64 ≠ 0 then readN nsec s2
      else some (List.replicate nsec 0, s2)
    some (smap, cmap, hmap, s3)

/-- Function imd_read_track_header_and_flags from libimd.c on a byte
stream: parse the header and maps (without synthesising cmap/hmap
defaults; absent maps stay zero-filled from the memset), read each
sector flag and skip its data.  The returned track has no data and is
not marked loaded. -/
def imd_read_track_header_and_flags (s : List Nat) : TrackReadResult :=
  match s with
  | [] => .eof
  | mode :: cyl :: headByte :: nsec :: ssize :: s1 =>
    let head := headByte &&& 15
    let hflag := headByte &&& 240
    if mode ≥ 6 || head > 1 || ssize ≥ 7 then .err IMD_ERR_READ_ERROR
    else
      let sectorSize := SECTOR_SIZE_LOOKUP.getD ssize 0
      match readMapsScan nsec hflag s1 with
      | none => .err IMD_ERR_READ_ERROR
      | some (smap, cmap, hmap, s2) =>
        match readFlagsSkip sectorSize nsec s2 with
        | none => .err IMD_ERR_READ_ERROR
        | some (sflags, s3) =>
          .ok { mode := mode, cyl := cyl, head := head, hflag := hflag,
                numSectors := nsec, sectorSizeCode := ssize,
                sectorSize := sectorSize, smap := smap, cmap := cmap,
                hmap := hmap, sflag := sflags, data := [],
                dataSize := 0, loaded := false } s3
  | _ :: _ => .err IMD_ERR_READ_ERROR

/-! ## Header and comment handling (libimd.c lines 109-287)

The header line is text; we keep bytes as Nat values (32 = space,
48..57 = digits, 58 = colon, 47 = slash, 13/10 = CR/LF). -/

/-- Parsed header info, mirroring struct ImdHeaderInfo of libimd.h
with the version string as a byte list. -/
structure ImdHeaderInfo where
  version : List Nat
  day : Int
  month : Int
  year : Int
  hour : Int
  minute : Int
  second : Int
deriving Repr, DecidableEq

instance : Inhabited ImdHeaderInfo := ⟨⟨[], 0, 0, 0, 0, 0, 0⟩⟩

/-- The byte sequence of the literal string Unknown. -/
def versionUnknown : List Nat := [85, 110, 107, 110, 111, 119, 110]

/-- C isspace on the default locale: space and the five control
whitespace characters 9..13. -/
def cIsSpace (b : Nat) : Bool := b = 32 || (9 ≤ b && b ≤ 13)

/-- C isdigit. -/
def cIsDigit (b : Nat) : Bool := 48 ≤ b && b ≤ 57

/-- Decimal value of a digit-byte run. -/
def digitsVal (l : List Nat) : Nat := l.foldl (fun a b => 10 * a + (b - 48)) 0

/-- Conversion directive %d of sscanf: skip whitespace, accept an
optional sign, then at least one digit. -/
def scanIntC (l : List Nat) : Option (Int × List Nat) :=
  let l1 := l.dropWhile cIsSpace
  match l1 with
  | 45 :: r =>
    let ds := r.takeWhile cIsDigit
    if ds.isEmpty then none else some (-(digitsVal ds : Int), r.drop ds.length)
  | 43 :: r =>
    let ds := r.takeWhile cIsDigit
    if ds.isEmpty then none else some ((digitsVal ds : Int), r.drop ds.length)
  | _ =>
    let ds := l1.takeWhile cIsDigit
    if ds.isEmpty then none else some ((digitsVal ds : Int), l1.drop ds.length)

/-- Literal character directive of sscanf. -/
def scanLiteral (c : Nat) (l : List Nat) : Option (List Nat) :=
  match l with
  | x :: r => if x = c then some r else none
  | [] => none

/-- The leading literal I, M, D of both sscanf formats followed by the
whitespace directive (a space in the format skips any run of
whitespace, including none). -/
def scanIMD (l : List Nat) : Option (List Nat) :=
  match l with
  | 73 :: 77 :: 68 :: r => some (r.dropWhile cIsSpace)
  | _ => none

/-- Scanset directive %31[^:] of sscanf: up to 31 bytes that are not a
colon; fails when no byte can be taken. -/
def scanVersionField (l : List Nat) : Option (List Nat × List Nat) :=
  let v := (l.takeWhile (fun b => b ≠ 58)).take 31
  if v.isEmpty then none else some (v, l.drop v.length)

/-- Full scan of the format IMD %31[^:]: %d/%d/%d %d:%d:%d, returning
the number of assigned conversions, the assigned version bytes and the
assigned integers in order (day, month, year, hour, minute, second);
unassigned values are absent, matching the memset-to-zero of the C
structure before the sscanf call. -/
def scanHeaderLine (l : List Nat) : Nat × List Nat × List Int :=
  match scanIMD l with
  | none => (0, [], [])
  | some l1 =>
  match scanVersionField l1 with
  | none => (0, [], [])
  | some (v, l2) =>
  match scanLiteral 58 l2 with
  | none => (1, v, [])
  | some l3 =>
  match scanIntC l3 with
  | none => (1, v, [])
  | some (d, l4) =>
  match scanLiteral 47 l4 with
  | none => (2, v, [d])
  | some l5 =>
  match scanIntC l5 with
  | none => (2, v, [d])
  | some (mo, l6) =>
  match scanLiteral 47 l6 with
  | none => (3, v, [d, mo])
  | some l7 =>
  match scanIntC l7 with
  | none => (3, v, [d, mo])
  | some (y, l8) =>
  match scanIntC l8 with
  | none => (4, v, [d, mo, y])
  | some (hh, l9) =>
  match scanLiteral 58 l9 with
  | none => (5, v, [d, mo, y, hh])
  | some l10 =>
  match scanIntC l10 with
  | none => (5, v, [d, mo, y, hh])
  | some (mi, l11) =>
  match scanLiteral 58 l11 with
  | none => (6, v, [d, mo, y, hh, mi])
  | some l12 =>
  match scanIntC l12 with
  | none => (6, v, [d, mo, y, hh, mi])
  | some (sec, _) => (7, v, [d, mo, y, hh, mi, sec])

/-- The recovery scan sscanf(line, "IMD %31[^:]:", version): the
version is assigned exactly when the scanset matches at least one
byte; the trailing colon does not affect the assignment count. -/
def parseVersionOnly (l : List Nat) : Option (List Nat) :=
  (scanIMD l).bind (fun l1 => (scanVersionField l1).map (fun p => p.1))

/-- Truncation at the first CR or LF, modelling
line[strcspn(line, CRLF)] = 0. -/
def trimCrLf (l : List Nat) : List Nat :=
  l.takeWhile (fun b => b ≠ 13 && b ≠ 10)

/-- The strncmp(line, IMD-space, 4) prefix test. -/
def startsWithIMD (l : List Nat) : Bool :=
  match l with
  | 73 :: 77 :: 68 :: 32 :: _ => true
  | _ => false

/-- The range validation of the parsed date/time values (libimd.c
lines 173-177): month 1-12, day 1-31, hour 0-23, minute 0-59,
second 0-59; the year is not range-checked.  The argument list holds
the parsed values in scan order day, month, year, hour, minute,
second. -/
def headerDateOutOfRange (nums : List Int) : Bool :=
  let d := nums.getD 0 0
  let mo := nums.getD 1 0
  let hh := nums.getD 3 0
  let mi := nums.getD 4 0
  let sec := nums.getD 5 0
  mo < 1 || mo > 12 || d < 1 || d > 31 ||
    hh < 0 || hh > 23 || mi < 0 || mi > 59 || sec < 0 || sec > 59

/-- Function imd_read_file_header from libimd.c on the line obtained
from fgets (none models a read fault or EOF).  On success the parsed
info is returned; on failure the caller structure is untouched
(modelled by the none component).  A line with the IMD prefix always
succeeds; incomplete or out-of-range date/time fields are zeroed while
the version is kept when recoverable and set to Unknown otherwise. -/
def imd_read_file_header (input : Option (List Nat)) : Int × Option ImdHeaderInfo :=
  match input with
  | none => (IMD_ERR_READ_ERROR, none)
  | some raw =>
    let line := trimCrLf raw
    if !startsWithIMD line then (IMD_ERR_READ_ERROR, none)
    else
      let (fields, ver, nums) := scanHeaderLine line
      if fields < 7 then
        let version :=
          match parseVersionOnly line with
          | some v => v
          | none => versionUnknown
        (0, some ⟨version, 0, 0, 0, 0, 0, 0⟩)
      else
        if headerDateOutOfRange nums then
          (0, some ⟨ver, 0, 0, 0, 0, 0, 0⟩)
        else
          (0, some ⟨ver, nums.getD 0 0, nums.getD 1 0, nums.getD 2 0,
            nums.getD 3 0, nums.getD 4 0, nums.getD 5 0⟩)

/-- Model of fgets(line, 256, f) on a byte stream: none at EOF,
otherwise up to 255 bytes, stopping after the first LF. -/
def fgetsLine (s : List Nat) : Option (List Nat × List Nat) :=
  if s.isEmpty then none
  else
    let candidate := s.take 255
    let upto := candidate.takeWhile (fun b => b ≠ 10)
    let taken := if upto.length < candidate.length then upto ++ [10] else candidate
    some (taken, s.drop taken.length)

/-- Stream-level wrapper of imd_read_file_header as used by callers
that keep reading afterwards: fgets one line and parse it. -/
def imd_read_file_header_stream (s : List Nat) :
    Int × Option ImdHeaderInfo × List Nat :=
  match fgetsLine s with
  | none => (IMD_ERR_READ_ERROR, none, s)
  | some (line, rest) =>
    let (code, info) := imd_read_file_header (some line)
    (code, info, rest)

/-- Function imd_skip_comment_block from libimd.c: consume bytes up to
and including the 0x1A marker; EOF before the marker is an error. -/
def imd_skip_comment_block (s : List Nat) : Option (List Nat) :=
  match s.dropWhile (fun b => b ≠ 26) with
  | [] => none
  | _ :: r => some r

/-! ## Consistency scanner (libimdchk.c) -/

/-- Check bit CHECK_BIT_HEADER from libimdchk.h. -/
def CHECK_BIT_HEADER : Nat := 1

/-- Check bit CHECK_BIT_COMMENT_TERM from libimdchk.h. -/
def CHECK_BIT_COMMENT_TERM : Nat := 2

/-- Check bit CHECK_BIT_TRACK_READ from libimdchk.h. -/
def CHECK_BIT_TRACK_READ : Nat := 4

/-- Check bit CHECK_BIT_FTELL from libimdchk.h. -/
def CHECK_BIT_FTELL : Nat := 8

/-- Check bit CHECK_BIT_CON_CYL from libimdchk.h. -/
def CHECK_BIT_CON_CYL : Nat := 16

/-- Check bit CHECK_BIT_CON_HEAD from libimdchk.h. -/
def CHECK_BIT_CON_HEAD : Nat := 32

/-- Check bit CHECK_BIT_CON_SECTORS from libimdchk.h. -/
def CHECK_BIT_CON_SECTORS : Nat := 64

/-- Check bit CHECK_BIT_SEQ_CYL_DEC from libimdchk.h. -/
def CHECK_BIT_SEQ_CYL_DEC : Nat := 128

/-- Check bit CHECK_BIT_SEQ_HEAD_ORDER from libimdchk.h. -/
def CHECK_BIT_SEQ_HEAD_ORDER : Nat := 256

/-- Check bit CHECK_BIT_DUPE_SID from libimdchk.h. -/
def CHECK_BIT_DUPE_SID : Nat := 512

/-- Check bit CHECK_BIT_INV_SFLAG_VALUE from libimdchk.h. -/
def CHECK_BIT_INV_SFLAG_VALUE : Nat := 1024

/-- Check bit CHECK_BIT_SFLAG_DATA_ERR from libimdchk.h. -/
def CHECK_BIT_SFLAG_DATA_ERR : Nat := 2048

/-- Check bit CHECK_BIT_SFLAG_DEL_DAM from libimdchk.h. -/
def CHECK_BIT_SFLAG_DEL_DAM : Nat := 4096

/-- Check bit CHECK_BIT_DIFF_MAX_CYL from libimdchk.h. -/
def CHECK_BIT_DIFF_MAX_CYL : Nat := 8192

/-- Options record of the scanner (struct ImdChkOptions). -/
structure ImdChkOptions where
  errorMask : Nat
  maxAllowedCyl : Int
  requiredHead : Int
  maxAllowedSectors : Int
deriving Repr, DecidableEq

/-- Results record of the scanner (struct ImdChkResults). -/
structure ImdChkResults where
  checkFailuresMask : Nat
  totalSectorCount : Nat
  unavailableSectorCount : Nat
  deletedSectorCount : Nat
  compressedSectorCount : Nat
  dataErrorSectorCount : Nat
  trackReadCount : Nat
  maxCylSide0 : Int
  maxCylSide1 : Int
  maxHeadSeen : Int
  detectedInterleave : Int
deriving Repr, DecidableEq

/-- Set a failure bit in the results mask. -/
def orMask (r : ImdChkResults) (bit : Nat) : ImdChkResults :=
  { r with checkFailuresMask := r.checkFailuresMask ||| bit }

/-- Search used by determine_interleave_internal: first physical index
in 1 .. n-1 whose smap entry equals the target ID. -/
def findIdxFrom1 (smap : List Nat) (n target : Nat) : Option Nat :=
  (List.range' 1 (n - 1)).find? (fun i => smap.getD i 0 = target)

/-- Function determine_interleave_internal from libimdchk.c. -/
def determine_interleave_internal (smap : List Nat) (n : Nat) : Int :=
  if n < 2 then 1
  else
    let first := smap.getD 0 0
    let nextId := if first = 0 then 1 else first + 1
    match findIdxFrom1 smap n nextId with
    | some p => (p : Int)
    | none =>
      let wrapId :=
        if first > 1 then ((List.range n).map (fun i => smap.getD i 0)).foldl min 255
        else if first = 0 then 0 else 1
      match findIdxFrom1 smap n wrapId with
      | some p => (p : Int)
      | none => 0

/-- Seen-bitmap walk of check_smap_consistency_internal: true when
some sector ID repeats an earlier one. -/
def smapDupeScan : List Nat → List Bool → Bool
  | [], _ => false
  | id :: rest, seen =>
    if seen.getD id false then true
    else smapDupeScan rest (seen.set id true)

/-- Function check_smap_consistency_internal from libimdchk.c. -/
def check_smap_consistency_internal (t : ImdTrackInfo) (r : ImdChkResults) :
    ImdChkResults :=
  if t.numSectors ≤ 1 then r
  else if smapDupeScan ((List.range t.numSectors).map (fun i => t.smap.getD i 0))
      (List.replicate 256 false) then
    orMask r CHECK_BIT_DUPE_SID
  else r

/-- Per-sector body of the statistics loop of
check_sflag_consistency_and_stats_internal: the accumulator carries
the results record and the data_error_found / deleted_dam_found
markers. -/
def sflagStep (acc : ImdChkResults × Bool × Bool) (flag : Nat) :
    ImdChkResults × Bool × Bool :=
  let (r, de, dd) := acc
  let r := if flag > 8 then orMask r CHECK_BIT_INV_SFLAG_VALUE else r
  if !IMD_SDR_HAS_DATA flag then
    ({ r with unavailableSectorCount := r.unavailableSectorCount + 1 }, de, dd)
  else
    let r := if IMD_SDR_IS_COMPRESSED flag then
        { r with compressedSectorCount := r.compressedSectorCount + 1 } else r
    let rdd := if IMD_SDR_HAS_DAM flag then
        ({ r with deletedSectorCount := r.deletedSectorCount + 1 }, true)
      else (r, dd)
    let rde := if IMD_SDR_HAS_ERR flag then
        ({ rdd.1 with dataErrorSectorCount := rdd.1.dataErrorSectorCount + 1 }, true)
      else (rdd.1, de)
    (rde.1, rde.2, rdd.2)

/-- Conversion of the two found markers into their failure bits after
the statistics loop. -/
def sflagFinish (folded : ImdChkResults × Bool × Bool) : ImdChkResults :=
  let r1 := if folded.2.1 then orMask folded.1 CHECK_BIT_SFLAG_DATA_ERR
            else folded.1
  if folded.2.2 then orMask r1 CHECK_BIT_SFLAG_DEL_DAM else r1

/-- Function check_sflag_consistency_and_stats_internal from
libimdchk.c: per-sector flag validity, statistics and the two
track-level found markers. -/
def check_sflag_consistency_and_stats_internal (t : ImdTrackInfo)
    (r : ImdChkResults) : ImdChkResults :=
  let r0 := { r with totalSectorCount := r.totalSectorCount + t.numSectors }
  if t.numSectors = 0 then r0
  else
    sflagFinish (((List.range t.numSectors).map
      (fun i => t.sflag.getD i 0)).foldl sflagStep (r0, false, false))

/-- Loop state of imdchk_check_file: the accumulated results plus the
previous-track memory (last_cyl, last_head, first_track). -/
structure ChkState where
  results : ImdChkResults
  lastCyl : Nat
  lastHead : Nat
  firstTrack : Bool
deriving Repr, DecidableEq

/-- Constraint phase of the scan loop body (libimdchk.c lines
186-195): the updated results and whether any constraint failed. -/
def chkConstraintsPhase (opts : ImdChkOptions) (track : ImdTrackInfo)
    (r0 : ImdChkResults) : ImdChkResults × Bool :=
  let conCyl := opts.maxAllowedCyl ≠ -1 && (track.cyl : Int) > opts.maxAllowedCyl
  let conHead := opts.requiredHead ≠ -1 && (track.head : Int) ≠ opts.requiredHead
  let conSec := opts.maxAllowedSectors ≠ -1 &&
    (track.numSectors : Int) > opts.maxAllowedSectors
  let r1 := if conCyl then orMask r0 CHECK_BIT_CON_CYL else r0
  let r2 := if conHead then orMask r1 CHECK_BIT_CON_HEAD else r1
  let r3 := if conSec then orMask r2 CHECK_BIT_CON_SECTORS else r2
  (r3, conCyl || conHead || conSec)

/-- Summary phase of the scan loop body (libimdchk.c lines 201-207):
per-side maximal cylinder, maximal head and first detected
interleave. -/
def chkSummaryPhase (track : ImdTrackInfo) (r3 : ImdChkResults) :
    ImdChkResults :=
  let r4 :=
    if track.head = 0 then
      (if (track.cyl : Int) > r3.maxCylSide0 then
        { r3 with maxCylSide0 := (track.cyl : Int) } else r3)
    else if track.head = 1 then
      (if (track.cyl : Int) > r3.maxCylSide1 then
        { r3 with maxCylSide1 := (track.cyl : Int) } else r3)
    else r3
  let r5 := if (track.head : Int) > r4.maxHeadSeen then
      { r4 with maxHeadSeen := (track.head : Int) } else r4
  if r5.detectedInterleave = -1 && track.numSectors > 0 then
    { r5 with detectedInterleave :=
        determine_interleave_internal track.smap track.numSectors } else r5

/-- Sequence-consistency phase of the scan loop body (libimdchk.c
lines 210-221): the updated results and whether the continue for a
fatal sequence error fires. -/
def chkSeqPhase (opts : ImdChkOptions) (st : ChkState) (track : ImdTrackInfo)
    (r6 : ImdChkResults) : ImdChkResults × Bool :=
  if st.firstTrack then (r6, false)
  else
    let r7 := if track.cyl < st.lastCyl then
        orMask r6 CHECK_BIT_SEQ_CYL_DEC else r6
    let r8 := if track.cyl = st.lastCyl && track.head ≤ st.lastHead &&
        !(track.head = 0 && st.lastHead > 0) then
        orMask r7 CHECK_BIT_SEQ_HEAD_ORDER else r7
    (r8, (opts.errorMask &&&
      (CHECK_BIT_SEQ_CYL_DEC ||| CHECK_BIT_SEQ_HEAD_ORDER) &&&
      r8.checkFailuresMask) ≠ 0)

/-- Per-track body of the scan loop of imdchk_check_file (libimdchk.c
lines 182-229) for a successfully read track: a continue in the source
returns the state early without taking over the previous-track
memory. -/
def imdchkTrackStep (opts : ImdChkOptions) (st : ChkState)
    (track : ImdTrackInfo) : ChkState :=
  let r0 := { st.results with trackReadCount := st.results.trackReadCount + 1 }
  let con := chkConstraintsPhase opts track r0
  if con.2 &&
      (opts.errorMask &&& (CHECK_BIT_CON_CYL ||| CHECK_BIT_CON_HEAD |||
        CHECK_BIT_CON_SECTORS)) ≠ 0 then
    { st with results := con.1 }
  else
    let seqPhase := chkSeqPhase opts st track (chkSummaryPhase track con.1)
    if seqPhase.2 then { st with results := seqPhase.1 }
    else
      let st1 : ChkState :=
        ⟨seqPhase.1, track.cyl, track.head, false⟩
      let r9 := check_smap_consistency_internal track st1.results
      if (opts.errorMask &&& CHECK_BIT_DUPE_SID &&& r9.checkFailuresMask) ≠ 0 then
        { st1 with results := r9 }
      else
        { st1 with results := check_sflag_consistency_and_stats_internal track r9 }

/-- Track loop of imdchk_check_file.  The fuel argument is an artefact
of the model: with a non-fatal track-read error the C loop re-reads at
the restored position forever; the model stops when fuel runs out.
The ftell-failure branch of the source cannot occur on a pure list
stream and is not modelled. -/
def imdchk_loop (opts : ImdChkOptions) :
    Nat → List Nat → ChkState → ImdChkResults
  | 0, _, st => st.results
  | fuel + 1, s, st =>
    match imd_read_track_header_and_flags s with
    | .eof => st.results
    | .err _ =>
      let r := orMask st.results CHECK_BIT_TRACK_READ
      if (opts.errorMask &&& CHECK_BIT_TRACK_READ) ≠ 0 then r
      else imdchk_loop opts fuel s { st with results := r }
    | .ok t rest => imdchk_loop opts fuel rest (imdchkTrackStep opts st t)

/-- Cross-side check after the loop: both heads present with different
maximal cylinders. -/
def imdchkFinalize (r : ImdChkResults) : ImdChkResults :=
  if r.maxHeadSeen > 0 then
    if r.maxCylSide0 ≠ -1 && r.maxCylSide1 ≠ -1 &&
        r.maxCylSide0 ≠ r.maxCylSide1 then
      orMask r CHECK_BIT_DIFF_MAX_CYL
    else r
  else r

/-- Initial results record (memset plus the four -1 fields). -/
def imdchkInitResults : ImdChkResults :=
  ⟨0, 0, 0, 0, 0, 0, 0, -1, -1, -1, -1⟩

/-- Function imdchk_check_file from libimdchk.c on a byte stream;
none models the -1 return (a failure classified as fatal by the
error mask before the track loop). -/
def imdchk_check_file (s : List Nat) (opts : ImdChkOptions) :
    Option ImdChkResults :=
  let hdr := imd_read_file_header_stream s
  let r0 := if hdr.1 ≠ 0 then orMask imdchkInitResults CHECK_BIT_HEADER
            else imdchkInitResults
  if hdr.1 ≠ 0 && (opts.errorMask &&& CHECK_BIT_HEADER) ≠ 0 then none
  else
    let s1 := hdr.2.2
    match imd_skip_comment_block s1 with
    | none =>
      let r1 := orMask r0 CHECK_BIT_COMMENT_TERM
      if (opts.errorMask &&& CHECK_BIT_COMMENT_TERM) ≠ 0 then none
      else some (imdchkFinalize (imdchk_loop opts 1 [] ⟨r1, 0, 1, true⟩))
    | some s2 =>
      some (imdchkFinalize
        (imdchk_loop opts (s2.length + 1) s2 ⟨r0, 0, 1, true⟩))

/-! ## In-memory image (libimdf.c) -/

/-- Error code IMDF_ERR_OK from libimdf.h. -/
def IMDF_ERR_OK : Int := 0

/-- Error code IMDF_ERR_WRITE_PROTECTED from libimdf.h. -/
def IMDF_ERR_WRITE_PROTECTED : Int := -100

/-- Error code IMDF_ERR_GEOMETRY from libimdf.h. -/
def IMDF_ERR_GEOMETRY : Int := -101

/-- Error code IMDF_ERR_NOT_FOUND from libimdf.h. -/
def IMDF_ERR_NOT_FOUND : Int := -102

/-- Error code IMDF_ERR_ALLOC from libimdf.h. -/
def IMDF_ERR_ALLOC : Int := -103

/-- Error code IMDF_ERR_IO from libimdf.h. -/
def IMDF_ERR_IO : Int := -104

/-- Error code IMDF_ERR_INVALID_ARG from libimdf.h. -/
def IMDF_ERR_INVALID_ARG : Int := -105

/-- Error code IMDF_ERR_SECTOR_SIZE from libimdf.h. -/
def IMDF_ERR_SECTOR_SIZE : Int := -106

/-- Error code IMDF_ERR_BUFFER_SIZE from libimdf.h. -/
def IMDF_ERR_BUFFER_SIZE : Int := -107

/-- Error code IMDF_ERR_UNAVAILABLE from libimdf.h. -/
def IMDF_ERR_UNAVAILABLE : Int := -108

/-- Error code IMDF_ERR_LIBIMD_ERR from libimdf.h. -/
def IMDF_ERR_LIBIMD_ERR : Int := -109

/-- Function map_libimd_error from libimdf.c. -/
def map_libimd_error (e : Int) : Int :=
  if e = 0 || e = 1 then IMDF_ERR_OK
  else if e = IMD_ERR_READ_ERROR || e = IMD_ERR_WRITE_ERROR ||
      e = IMD_ERR_SEEK_ERROR then IMDF_ERR_IO
  else if e = IMD_ERR_ALLOC then IMDF_ERR_ALLOC
  else if e = IMD_ERR_INVALID_ARG then IMDF_ERR_INVALID_ARG
  else if e = IMD_ERR_BUFFER_TOO_SMALL then IMDF_ERR_BUFFER_SIZE
  else if e = IMD_ERR_SECTOR_NOT_FOUND || e = IMD_ERR_TRACK_NOT_FOUND then
    IMDF_ERR_NOT_FOUND
  else if e = IMD_ERR_UNAVAILABLE then IMDF_ERR_UNAVAILABLE
  else if e = IMD_ERR_SIZE_MISMATCH then IMDF_ERR_SECTOR_SIZE
  else IMDF_ERR_LIBIMD_ERR

/-- In-memory image handle (struct ImdImageFile of libimdf.c); the
host file handle and path are outside the pure model. -/
structure ImdImageFile where
  writeProtected : Bool
  readOnlyOpen : Bool
  headerInfo : ImdHeaderInfo
  comment : List Nat
  tracks : List ImdTrackInfo
  maxCyl : Nat
  maxHead : Nat
  maxSpt : Nat
deriving Repr, DecidableEq

/-- Function find_track_index_internal from libimdf.c: first index
with matching cylinder and head. -/
def find_track_index_internal (imdf : ImdImageFile) (cyl head : Nat) :
    Option Nat :=
  imdf.tracks.findIdx? (fun t => t.cyl = cyl && t.head = head)

/-- Function find_sector_index_internal from libimdf.c: first physical
index whose smap entry is the logical ID. -/
def find_sector_index_internal (t : ImdTrackInfo) (logicalId : Nat) :
    Option Nat :=
  (List.range t.numSectors).find? (fun i => t.smap.getD i 0 = logicalId)

/-- Binary-search loop of find_insertion_index from libimdf.c.  The
fuel argument bounds the iteration count; since high - low shrinks at
every step, any fuel of at least high - low reproduces the C loop. -/
def find_insertion_index_loop (tracks : List ImdTrackInfo)
    (cyl head : Nat) : Nat → Nat → Nat → Nat
  | low, _, 0 => low
  | low, high, fuel + 1 =>
    if low < high then
      let mid := low + (high - low) / 2
      let t := tracks.getD mid default
      if t.cyl < cyl || (t.cyl = cyl && t.head < head) then
        find_insertion_index_loop tracks cyl head (mid + 1) high fuel
      else
        find_insertion_index_loop tracks cyl head low mid fuel
    else low

/-- Function find_insertion_index from libimdf.c. -/
def find_insertion_index (imdf : ImdImageFile) (cyl head : Nat) : Nat :=
  find_insertion_index_loop imdf.tracks cyl head 0 imdf.tracks.length
    imdf.tracks.length

/-- Function get_sector_size_code from libimdf.c: index of the byte
size in the lookup table. -/
def get_sector_size_code (sectorSize : Nat) : Option Nat :=
  (List.range SECTOR_SIZE_LOOKUP.length).find?
    (fun i => SECTOR_SIZE_LOOKUP.getD i 0 = sectorSize)

/-- Track-writing phase of rewrite_image_file: each track must be
loaded and emit successfully with the default options, except the
modified index which uses the caller's options.  Returns IMDF_ERR_OK
or the first mapped failure. -/
def rewrite_tracks : List ImdTrackInfo → Nat → Nat → ImdWriteOpts → Int
  | [], _, _, _ => IMDF_ERR_OK
  | t :: rest, i, modIdx, modOpts =>
    let opts := if i = modIdx then modOpts else default_libimdf_write_opts
    if !t.loaded then IMDF_ERR_LIBIMD_ERR
    else
      match imd_write_track_imd_flags t opts with
      | .error e => map_libimd_error e
      | .ok _ => rewrite_tracks rest (i + 1) modIdx modOpts

/-- Function rewrite_image_file from libimdf.c at the level of the
pure model: the header, comment and truncation steps involve only the
host handle, so the observable outcome is the per-track emission
result. -/
def rewrite_image_file (imdf : ImdImageFile) (modIdx : Nat)
    (modOpts : ImdWriteOpts) : Int :=
  rewrite_tracks imdf.tracks 0 modIdx modOpts

/-- The base/DAM/ERR combination table shared by imd_write_track_imd
and the in-memory sflag predictions of libimdf.c. -/
def combineSflag (base : Nat) (dam err : Bool) : Nat :=
  if base = 1 then
    if dam && err then 7 else if err then 5 else if dam then 3 else 1
  else
    if dam && err then 8 else if err then 6 else if dam then 4 else 2

/-- Function imdf_write_sector from libimdf.c.  On success the result
carries the updated image and the write options passed to
rewrite_image_file for the modified track (recording, in particular,
the compression mode used for the on-disk rewrite). -/
def imdf_write_sector (imdf : ImdImageFile) (cyl head logicalId : Nat)
    (buffer : List Nat) : Except Int (ImdImageFile × ImdWriteOpts) :=
  if imdf.writeProtected then .error IMDF_ERR_WRITE_PROTECTED
  else if (imdf.maxCyl ≠ 255 && cyl > imdf.maxCyl) ||
      (imdf.maxHead ≠ 255 && head > imdf.maxHead) then
    .error IMDF_ERR_GEOMETRY
  else
    match find_track_index_internal imdf cyl head with
    | none => .error IMDF_ERR_NOT_FOUND
    | some trackIdx =>
      let track := imdf.tracks.getD trackIdx default
      match find_sector_index_internal track logicalId with
      | none => .error IMDF_ERR_NOT_FOUND
      | some sectorIdx =>
        if imdf.maxSpt ≠ 255 && logicalId > imdf.maxSpt && logicalId ≠ 0 then
          .error IMDF_ERR_GEOMETRY
        else if buffer.length ≠ track.sectorSize then .error IMDF_ERR_SECTOR_SIZE
        else if track.data.length ≤ sectorIdx then .error IMDF_ERR_LIBIMD_ERR
        else
          let originalSflag := track.sflag.getD sectorIdx 0
          let wasCompressed := IMD_SDR_IS_COMPRESSED originalSflag
          let track1 := { track with data := track.data.set sectorIdx buffer }
          let forceUncompressed := wasCompressed && !(imd_is_uniform buffer)
          let writeOpts := { default_libimdf_write_opts with
            compressionMode := if forceUncompressed then 2 else 0 }
          let imdf1 := { imdf with tracks := imdf.tracks.set trackIdx track1 }
          let rw := rewrite_image_file imdf1 trackIdx writeOpts
          if rw ≠ IMDF_ERR_OK then .error rw
          else if forceUncompressed then
            let newSflags := (List.range track1.numSectors).map (fun i =>
              let cur := track1.sflag.getD i 0
              combineSflag 1 (IMD_SDR_HAS_DAM cur) (IMD_SDR_HAS_ERR cur))
            let track2 := { track1 with
              sflag := newSflags ++ track1.sflag.drop track1.numSectors }
            .ok ({ imdf1 with tracks := imdf1.tracks.set trackIdx track2 },
              writeOpts)
          else
            let uniformNow := imd_is_uniform (track1.data.getD sectorIdx [])
            let finalDam := IMD_SDR_HAS_DAM originalSflag &&
              !writeOpts.forceNonDeleted
            let finalErr := IMD_SDR_HAS_ERR originalSflag &&
              !writeOpts.forceNonBad
            let base : Nat :=
              match writeOpts.compressionMode with
              | 2 => 1
              | 1 => if uniformNow then 2 else 1
              | _ =>
                if wasCompressed then (if uniformNow then 2 else 1)
                else if uniformNow && writeOpts.compressionMode = 0 then 2
                else 1
            let track2 := { track1 with
              sflag := track1.sflag.set sectorIdx
                (combineSflag base finalDam finalErr) }
            .ok ({ imdf1 with tracks := imdf1.tracks.set trackIdx track2 },
              writeOpts)

/-- Function imdf_write_track from libimdf.c: overwrite the track at
(cyl, head) or insert a fresh one at the sorted position, fill its
data with the fill byte, rewrite the file with force-compress, then
predict the in-memory sflags as compressed. -/
def imdf_write_track (imdf : ImdImageFile) (cyl head numSectors : Nat)
    (sectorSize fillByte : Nat) (smap cmap hmap : Option (List Nat)) :
    Except Int ImdImageFile :=
  if imdf.writeProtected then .error IMDF_ERR_WRITE_PROTECTED
  else if (imdf.maxCyl ≠ 255 && cyl > imdf.maxCyl) ||
      (imdf.maxHead ≠ 255 && head > imdf.maxHead) then
    .error IMDF_ERR_GEOMETRY
  else if numSectors > 0 && smap.isNone && (cmap.isSome || hmap.isSome) then
    .error IMDF_ERR_INVALID_ARG
  else
    match get_sector_size_code sectorSize with
    | none => .error IMDF_ERR_SECTOR_SIZE
    | some code =>
      let hflag := (if numSectors > 0 && cmap.isSome then 128 else 0) |||
        (if numSectors > 0 && hmap.isSome then 64 else 0)
      let newSmap :=
        match smap with
        | some m => (List.range numSectors).map (fun i => m.getD i 0)
        | none => (List.range numSectors).map (fun i => i + 1)
      let newCmap :=
        match cmap with
        | some m => (List.range numSectors).map (fun i => m.getD i 0)
        | none => List.replicate numSectors 0
      let newHmap :=
        match hmap with
        | some m => (List.range numSectors).map (fun i => m.getD i 0)
        | none => List.replicate numSectors 0
      let newTrack : ImdTrackInfo :=
        { mode := 5, cyl := cyl, head := head, hflag := hflag,
          numSectors := numSectors, sectorSizeCode := code,
          sectorSize := sectorSize, smap := newSmap, cmap := newCmap,
          hmap := newHmap, sflag := List.replicate numSectors 1,
          data := List.replicate numSectors (List.replicate sectorSize fillByte),
          dataSize := numSectors * sectorSize, loaded := true }
      let idxTracks : Nat × List ImdTrackInfo :=
        match find_track_index_internal imdf cyl head with
        | some idx => (idx, imdf.tracks.set idx newTrack)
        | none =>
          let idx := find_insertion_index imdf cyl head
          (idx, imdf.tracks.take idx ++ [newTrack] ++ imdf.tracks.drop idx)
      let imdf1 := { imdf with tracks := idxTracks.2 }
      let wopts := { default_libimdf_write_opts with compressionMode := 1 }
      let rw := rewrite_image_file imdf1 idxTracks.1 wopts
      if rw ≠ IMDF_ERR_OK then .error rw
      else
        let finalTrack := { newTrack with
          sflag := List.replicate numSectors 2 }
        .ok { imdf1 with tracks := idxTracks.2.set idxTracks.1 finalTrack }

/-- Strict (cyl, head) order on tracks. -/
def trackKeyLt (a b : ImdTrackInfo) : Prop :=
  a.cyl < b.cyl ∨ (a.cyl = b.cyl ∧ a.head < b.head)

/-- The sorted-track invariant of the image: strictly ascending by
(cyl, head), which also rules out duplicate (cyl, head) pairs. -/
def TracksSorted (l : List ImdTrackInfo) : Prop :=
  l.Pairwise trackKeyLt

/-! ## Auxiliary definitions for the statements and proofs -/

instance : DecidableRel trackKeyLt := fun a b => by
  unfold trackKeyLt; infer_instance

/-- Ordering test of the insertion binary search: the track sorts
strictly before the (cyl, head) key. -/
def InsLt (cyl head : Nat) (t : ImdTrackInfo) : Prop :=
  t.cyl < cyl ∨ (t.cyl = cyl ∧ t.head < head)

instance (cyl head : Nat) (t : ImdTrackInfo) : Decidable (InsLt cyl head t) := by
  unfold InsLt
  infer_instance

instance : Inhabited ImdChkResults := ⟨imdchkInitResults⟩

instance : Inhabited ImdWriteOpts := ⟨default_libimdf_write_opts⟩

instance : Inhabited ImdImageFile :=
  ⟨⟨false, false, default, [], [], 255, 255, 255⟩⟩

/-- Parse a whole track stream with the scan reader: some list when
every track reads successfully up to a clean EOF. -/
def parseTracksFueled : Nat → List Nat → Option (List ImdTrackInfo)
  | 0, _ => none
  | fuel + 1, s =>
    match imd_read_track_header_and_flags s with
    | .eof => some []
    | .err _ => none
    | .ok t rest => (parseTracksFueled fuel rest).map (fun ts => t :: ts)

/-- The scan loop of imdchk_check_file specialised to a stream whose
tracks all read successfully: a plain fold of the per-track body. -/
def chkFold (opts : ImdChkOptions) : List ImdTrackInfo → ChkState → ImdChkResults
  | [], st => st.results
  | t :: ts, st => chkFold opts ts (imdchkTrackStep opts st t)

/-- The head-order condition actually tested by imdchk_check_file for
one adjacent pair: same cylinder, head not strictly advancing, and not
a transition to head 0 from a nonzero head. -/
def seqHeadViolStep (prevCyl prevHead : Nat) (t : ImdTrackInfo) : Bool :=
  t.cyl = prevCyl && t.head ≤ prevHead && !(t.head = 0 && prevHead > 0)

/-- Some later track violates the head-order condition against its
immediate predecessor, starting from the given previous (cyl, head). -/
def seqHeadViolFrom : Nat → Nat → List ImdTrackInfo → Bool
  | _, _, [] => false
  | pc, ph, t :: ts => seqHeadViolStep pc ph t || seqHeadViolFrom t.cyl t.head ts

/-- Some track other than the first violates the head-order condition
against its immediate predecessor. -/
def seqHeadViolList : List ImdTrackInfo → Bool
  | [] => false
  | t :: ts => seqHeadViolFrom t.cyl t.head ts

/-! ## Concrete inputs used in counterexamples and witnesses -/

/-- A loaded single-density track builder for examples: cylinder 0,
head 0, 128-byte sectors. -/
def mkTrack (smap sflag : List Nat) (chunks : List (List Nat)) : ImdTrackInfo :=
  { mode := 5, cyl := 0, head := 0, hflag := 0, numSectors := smap.length,
    sectorSizeCode := 0, sectorSize := 128, smap := smap,
    cmap := List.replicate smap.length 0, hmap := List.replicate smap.length 0,
    sflag := sflag, data := chunks, dataSize := smap.length * 128,
    loaded := true }

/-- Track with an unsorted sector map, for the interleave-1 claim. -/
def exTrackC1 : ImdTrackInfo :=
  mkTrack [2, 1] [1, 1] [List.replicate 128 1, List.replicate 128 2]

/-- Track with a strictly sorted map, for the interleave-1 witness. -/
def exTrackC1s : ImdTrackInfo :=
  mkTrack [1, 2] [1, 1] [List.replicate 128 1, List.replicate 128 2]

/-- Write options requesting interleave factor 1 with as-read
compression. -/
def exOptsIl1 : ImdWriteOpts := ⟨0, false, false, [0, 1, 2, 3, 4, 5], 1⟩

/-- Write options requesting force-compress with as-read order. -/
def exOptsFC : ImdWriteOpts := ⟨1, false, false, [0, 1, 2, 3, 4, 5], 0⟩

/-- Track with a duplicated sector ID and an unavailable sector, for
the unavailable-preservation claim. -/
def exTrackC6 : ImdTrackInfo :=
  mkTrack [5, 5] [1, 0] [List.replicate 128 170, List.replicate 128 187]

/-- Duplicate-free track with an unavailable sector, for the
unavailable-preservation witness. -/
def exTrackC6w : ImdTrackInfo :=
  mkTrack [2, 1] [0, 1] [List.replicate 128 229, List.replicate 128 187]

/-- Track whose only sector is unavailable with a uniform in-memory
fill, for the uniformity claim. -/
def exTrackC7 : ImdTrackInfo :=
  mkTrack [1] [0] [List.replicate 128 229]

/-- Track with one normal non-uniform sector, for the uniformity
witness. -/
def exTrackC7w : ImdTrackInfo :=
  mkTrack [1] [1] [(1 :: List.replicate 127 0)]

/-- The interleaved sector map of the best-guess scenario. -/
def exTrackC8A : ImdTrackInfo :=
  mkTrack [1, 5, 2, 6, 3, 7, 4, 8] (List.replicate 8 1)
    (List.replicate 8 (List.replicate 128 229))

/-- The sequential sector map of the best-guess scenario. -/
def exTrackC8B : ImdTrackInfo :=
  mkTrack [1, 2, 3, 4, 5, 6, 7, 8] (List.replicate 8 1)
    (List.replicate 8 (List.replicate 128 229))

/-- Image with one two-sector track whose first sector is compressed
and whose second is unavailable. -/
def exImgC2 : ImdImageFile :=
  { writeProtected := false, readOnlyOpen := false, headerInfo := default,
    comment := [],
    tracks := [mkTrack [1, 2] [2, 0]
      [List.replicate 128 229, List.replicate 128 229]],
    maxCyl := 255, maxHead := 255, maxSpt := 255 }

/-- A non-uniform replacement sector body. -/
def exBufC2 : List Nat := 1 :: List.replicate 127 0

/-- The image and options imdf_write_sector produces on the inputs of
the compressed-edit scenario. -/
def exImgC2out : ImdImageFile × ImdWriteOpts :=
  (imdf_write_sector exImgC2 0 0 1 exBufC2).toOption.getD default

/-- The in-memory track of exImgC2 right after the new sector bytes
are copied in (the state rewrite_image_file persists). -/
def exTrackC2edited : ImdTrackInfo :=
  { mkTrack [1, 2] [2, 0] [List.replicate 128 229, List.replicate 128 229] with
    data := [exBufC2, List.replicate 128 229] }

/-- Sorted two-track image for the write-track witness. -/
def exImgC5 : ImdImageFile :=
  { writeProtected := false, readOnlyOpen := false, headerInfo := default,
    comment := [],
    tracks := [mkTrack [1] [1] [List.replicate 128 229],
      { mkTrack [1] [1] [List.replicate 128 229] with cyl := 1 }],
    maxCyl := 255, maxHead := 255, maxSpt := 255 }

/-- The image produced by inserting track (0, 1) into exImgC5. -/
def exImgC5out : ImdImageFile :=
  (imdf_write_track exImgC5 0 1 1 128 229 none none none).toOption.getD default

/-- Header line and comment terminator of the scanner example files. -/
def c4HdrBytes : List Nat :=
  [73, 77, 68, 32, 49, 46, 49, 56, 58, 32, 48, 49, 47, 48, 49, 47, 50, 48,
   50, 53, 32, 48, 48, 58, 48, 48, 58, 48, 48, 13, 10, 26]

/-- Two zero-sector track records: cylinder 0 head 1, then cylinder 0
head 0 (a head regression to 0 within the same cylinder). -/
def c4TrackBytes : List Nat := [0, 0, 1, 0, 0] ++ [0, 0, 0, 0, 0]

/-- Scanner example file: header, empty comment, then the two track
records of c4TrackBytes. -/
def c4File : List Nat := c4HdrBytes ++ c4TrackBytes

/-- Two zero-sector track records both at cylinder 0 head 0. -/
def c4TrackBytesB : List Nat := [0, 0, 0, 0, 0] ++ [0, 0, 0, 0, 0]

/-- Scanner witness file: header, empty comment, duplicate (0, 0)
tracks. -/
def c4FileB : List Nat := c4HdrBytes ++ c4TrackBytesB

/-- Scanner options with an all-clear error mask and no constraints. -/
def c4Opts : ImdChkOptions := ⟨0, -1, -1, -1⟩

/-- The results record of the scanner witness run. -/
def c4ResB : ImdChkResults :=
  (imdchk_check_file c4FileB c4Opts).getD default

/-- The track list of the scanner witness file. -/
def c4TsB : List ImdTrackInfo :=
  (parseTracksFueled (c4TrackBytesB.length + 1) c4TrackBytesB).getD []

/-! ## Theorems -/

set_option maxRecDepth 8000

/-- The executable two's-complement AND agrees with Mathlib's Int.land
on single-bit masks, for every promoted int value. -/
theorem cIntAnd_two_pow (x : Int) (i : Nat) :
    (cIntAnd x (2 ^ i) : Int) = Int.land x ((2 ^ i : Nat) : Int) := by
  cases x with
  | ofNat m =>
    show ((m &&& 2 ^ i : Nat) : Int) = Int.land (Int.ofNat m) (Int.ofNat (2 ^ i))
    simp [Int.land]
  | negSucc m =>
    show ((2 ^ i - (2 ^ i &&& m) : Nat) : Int) =
      Int.land (Int.negSucc m) (Int.ofNat (2 ^ i))
    have hland : Int.land (Int.negSucc m) (Int.ofNat (2 ^ i)) =
        Int.ofNat (Nat.ldiff (2 ^ i) m) := by simp [Int.land]
    rw [hland]
    have hand : 2 ^ i &&& m = 2 ^ i * (m.testBit i).toNat := Nat.two_pow_and m i
    have hldiff : Nat.ldiff (2 ^ i) m =
        if m.testBit i then 0 else 2 ^ i := by
      apply Nat.eq_of_testBit_eq
      intro k
      rw [Nat.testBit_ldiff]
      by_cases hik : i = k
      · subst hik
        cases hm : m.testBit i <;> simp [Nat.testBit_two_pow, hm]
      · cases hm : m.testBit i <;>
          simp [Nat.testBit_two_pow, hik, Nat.zero_testBit]
    rw [hand, hldiff]
    cases hm : m.testBit i <;> simp

/-- Claim C3: the DAM and ERR macro predicates.  The code computes
(type - 1) & mask after integer promotion, so both predicates are TRUE
at sflag 0x00, contradicting the claim that they are false there; on
the data-bearing codes 0x01..0x08 they hold exactly for 0x03, 0x04,
0x07, 0x08 (DAM) and 0x05, 0x06, 0x07, 0x08 (ERR) as the claim
states. -/
theorem C3_dam_err_macros_at_zero :
    IMD_SDR_HAS_DAM 0 = true ∧ IMD_SDR_HAS_ERR 0 = true ∧
    (List.range 9).filter (fun t => IMD_SDR_HAS_DAM t) = [0, 3, 4, 7, 8] ∧
    (List.range 9).filter (fun t => IMD_SDR_HAS_ERR t) = [0, 5, 6, 7, 8] := by
  refine ⟨rfl, rfl, ?_, ?_⟩ <;> rfl

/-- Claim C2 (code-bug evaluation): writing non-uniform data over the
compressed sector 1 of a track whose sector 2 is unavailable succeeds
and rewrites the file with compression mode force-decompress (2), but
the unavailable sector's in-memory sflag becomes 0x07
(deleted+error+data) instead of a code preserving its absent DAM/ERR
bits, while the very rewrite emitted 0x00 for that sector on disk. -/
theorem C2_write_sector_compressed_edit_eval :
    imdf_write_sector exImgC2 0 0 1 exBufC2 = .ok exImgC2out ∧
    exImgC2out.2.compressionMode = 2 ∧
    (exImgC2.tracks.getD 0 default).sflag = [2, 0] ∧
    (exImgC2out.1.tracks.getD 0 default).sflag = [1, 7] ∧
    imd_write_track_imd_flags exTrackC2edited exImgC2out.2 = .ok [1, 0] :=
  ⟨rfl, rfl, rfl, rfl, rfl⟩

/-- Claim C1 (counterexample): applying interleave factor 1 to a
loaded two-sector track with the unsorted map [2, 1] rewrites the map
to [1, 2] and swaps the two data chunks, so the call is not a no-op on
maps and data. -/
theorem C1_counterexample :
    exTrackC1.loaded = true ∧ exTrackC1.numSectors = 2 ∧
    exTrackC1.smap = [2, 1] ∧
    (imd_apply_interleave exTrackC1 1).toOption.map (fun t => (t.smap, t.data)) =
      some ([1, 2], [List.replicate 128 2, List.replicate 128 1]) :=
  ⟨rfl, rfl, rfl, rfl⟩

/-- Claim C6 (counterexample): on a loaded track with the duplicated
sector map [5, 5] and sflags [1, 0], writing with interleave factor 1
emits the flags [1, 1]: the unavailable sector is dropped by the
interleave placement (both slots receive copies of physical sector 0)
and no 0x00 record is emitted for it. -/
theorem C6_counterexample :
    exTrackC6.sflag = [1, 0] ∧
    imd_write_track_imd_flags exTrackC6 exOptsIl1 = .ok [1, 1] :=
  ⟨rfl, rfl⟩

/-- Claim C7 (counterexample): with force-compress, a sector whose
sflag is 0x00 is emitted as 0x00 even though its in-memory bytes are
uniform, so "emitted flag is an even (compressed) code iff the bytes
are uniform" fails on unavailable sectors. -/
theorem C7_counterexample :
    exOptsFC.compressionMode = 1 ∧
    imd_is_uniform (exTrackC7.data.getD 0 []) = true ∧
    imd_write_track_imd_flags exTrackC7 exOptsFC = .ok [0] ∧
    IMD_SDR_IS_COMPRESSED 0 = false :=
  ⟨rfl, rfl, rfl, rfl⟩

/-- Claim C4 (counterexample): a file whose tracks are (cylinder 0,
head 1) followed by (cylinder 0, head 0) - the head does not strictly
advance within the same cylinder - is scanned with both tracks read
successfully, yet the SeqHeadOrder bit stays clear, because the code
never flags a transition to head 0 from a nonzero head, even within
the same cylinder. -/
theorem C4_counterexample :
    (parseTracksFueled 11 c4TrackBytes).map
        (fun ts => ts.map (fun t => (t.cyl, t.head))) = some [(0, 1), (0, 0)] ∧
    (imdchk_check_file c4File c4Opts).map
        (fun r => (r.checkFailuresMask &&& CHECK_BIT_SEQ_HEAD_ORDER,
          r.trackReadCount)) = some (0, 2) :=
  ⟨rfl, rfl⟩

/-- Claim C10: a track record whose num_sectors byte is 0 (with valid
mode, head and size-code bytes) loads successfully, consuming exactly
the five header bytes, and the resulting track is marked loaded with a
null data buffer (no chunks) and data_size 0. -/
theorem C10_load_track_zero_sectors (mode cyl headByte ssize fill : Nat)
    (rest : List Nat) (hm : mode < 6) (hh : headByte &&& 15 ≤ 1)
    (hs : ssize < 7) :
    imd_load_track fill (mode :: cyl :: headByte :: 0 :: ssize :: rest) =
      .ok { mode := mode, cyl := cyl, head := headByte &&& 15,
            hflag := headByte &&& 240, numSectors := 0,
            sectorSizeCode := ssize,
            sectorSize := SECTOR_SIZE_LOOKUP.getD ssize 0, smap := [],
            cmap := [], hmap := [], sflag := [], data := [], dataSize := 0,
            loaded := true } rest := by
  have h1 : ¬ (mode ≥ 6) := by omega
  have h2 : ¬ (headByte &&& 15 > 1) := by omega
  have h3 : ¬ (ssize ≥ 7) := by omega
  simp [imd_load_track, readMapsLoad, loadSectors, h1, h2, h3]

/-- Witness for C10 at a concrete record: mode 5, cylinder 3, head
byte 0, zero sectors, size code 2, followed by two stray bytes. -/
theorem C10_witness :
    5 < 6 ∧ (0 &&& 15 : Nat) ≤ 1 ∧ 2 < 7 ∧
    imd_load_track 229 [5, 3, 0, 0, 2, 9, 9] =
      .ok { mode := 5, cyl := 3, head := 0, hflag := 0, numSectors := 0,
            sectorSizeCode := 2, sectorSize := 512, smap := [], cmap := [],
            hmap := [], sflag := [], data := [], dataSize := 0,
            loaded := true } [9, 9] :=
  ⟨by omega, by decide, by omega,
    C10_load_track_zero_sectors 5 3 0 2 229 [9, 9] (by omega) (by decide)
      (by omega)⟩

/-- Structure of the full header scan: at most seven conversions are
assigned, and whenever any conversion is assigned the version it
returns is the one the recovery scan parses. -/
theorem scanHeaderLine_props (l : List Nat) :
    (scanHeaderLine l).1 ≤ 7 ∧
    ((scanHeaderLine l).1 = 0 ∨
      parseVersionOnly l = some (scanHeaderLine l).2.1) := by
  unfold scanHeaderLine parseVersionOnly
  cases h1 : scanIMD l with
  | none => simp [h1]
  | some l1 =>
    cases h2 : scanVersionField l1 with
    | none => simp [h1, h2]
    | some p =>
      obtain ⟨v, l2⟩ := p
      simp only [h1, h2, Option.bind_some, Option.map_some]
      constructor
      · repeat' split
        all_goals simp
      · right
        repeat' split
        all_goals simp [h2]

/-- Claim C9: imd_read_file_header returns 0 exactly when a line
beginning with the literal IMD-space is read (a read fault or a
missing prefix returns IMD_ERR_READ_ERROR); on success the parsed
info has either all seven conversions assigned with the date/time
values in range and copied, or all six date/time fields zeroed; the
version is the recovery-scan parse when it succeeds and the literal
Unknown otherwise. -/
theorem C9_read_file_header_spec (input : Option (List Nat)) :
    ((imd_read_file_header input).1 = 0 ∨
      (imd_read_file_header input).1 = IMD_ERR_READ_ERROR) ∧
    (input = none → (imd_read_file_header input).1 = IMD_ERR_READ_ERROR) ∧
    (∀ l, input = some l →
      ((imd_read_file_header input).1 = 0 ↔
        startsWithIMD (trimCrLf l) = true)) ∧
    (∀ l, input = some l → startsWithIMD (trimCrLf l) = true →
      ∃ h, (imd_read_file_header input).2 = some h ∧
        h.version = (parseVersionOnly (trimCrLf l)).getD versionUnknown ∧
        (((scanHeaderLine (trimCrLf l)).1 = 7 ∧
          headerDateOutOfRange (scanHeaderLine (trimCrLf l)).2.2 = false ∧
          h.day = (scanHeaderLine (trimCrLf l)).2.2.getD 0 0 ∧
          h.month = (scanHeaderLine (trimCrLf l)).2.2.getD 1 0 ∧
          h.year = (scanHeaderLine (trimCrLf l)).2.2.getD 2 0 ∧
          h.hour = (scanHeaderLine (trimCrLf l)).2.2.getD 3 0 ∧
          h.minute = (scanHeaderLine (trimCrLf l)).2.2.getD 4 0 ∧
          h.second = (scanHeaderLine (trimCrLf l)).2.2.getD 5 0) ∨
        (h.day = 0 ∧ h.month = 0 ∧ h.year = 0 ∧ h.hour = 0 ∧
          h.minute = 0 ∧ h.second = 0))) := by
  cases input with
  | none =>
    refine ⟨Or.inr rfl, fun _ => rfl, ?_, ?_⟩
    · intro l hl; cases hl
    · intro l hl; cases hl
  | some raw =>
    by_cases hp : startsWithIMD (trimCrLf raw) = true
    · have hval : (imd_read_file_header (some raw)).1 = 0 := by
        by_cases h7 : (scanHeaderLine (trimCrLf raw)).1 < 7
        · simp only [imd_read_file_header, hp, Bool.not_true,
            Bool.false_eq_true, if_false, h7, if_true]
        · by_cases hr :
              headerDateOutOfRange (scanHeaderLine (trimCrLf raw)).2.2 = true
          · simp only [imd_read_file_header, hp, Bool.not_true,
              Bool.false_eq_true, if_false, h7, hr, if_true]
          · simp only [imd_read_file_header, hp, Bool.not_true,
              Bool.false_eq_true, if_false, h7, hr]
      refine ⟨Or.inl hval, ?_, ?_, ?_⟩
      · intro hc; cases hc
      · intro l hl
        cases hl
        exact ⟨fun _ => hp, fun _ => hval⟩
      · intro l hl hpl
        cases hl
        by_cases h7 : (scanHeaderLine (trimCrLf raw)).1 < 7
        · have hbr : imd_read_file_header (some raw) =
              (0, some ⟨(parseVersionOnly (trimCrLf raw)).getD versionUnknown,
                0, 0, 0, 0, 0, 0⟩) := by
            simp only [imd_read_file_header, hp, Bool.not_true,
              Bool.false_eq_true, if_false, h7, if_true]
            cases hpv : parseVersionOnly (trimCrLf raw) <;> simp [hpv]
          rw [hbr]
          exact ⟨_, rfl, rfl, Or.inr ⟨rfl, rfl, rfl, rfl, rfl, rfl⟩⟩
        · have h7e : (scanHeaderLine (trimCrLf raw)).1 = 7 := by
            have := (scanHeaderLine_props (trimCrLf raw)).1
            omega
          have hvs : parseVersionOnly (trimCrLf raw) =
              some (scanHeaderLine (trimCrLf raw)).2.1 := by
            rcases (scanHeaderLine_props (trimCrLf raw)).2 with h0 | h
            · omega
            · exact h
          by_cases hr :
              headerDateOutOfRange (scanHeaderLine (trimCrLf raw)).2.2 = true
          · have hbr : imd_read_file_header (some raw) =
                (0, some ⟨(scanHeaderLine (trimCrLf raw)).2.1,
                  0, 0, 0, 0, 0, 0⟩) := by
              simp only [imd_read_file_header, hp, Bool.not_true,
                Bool.false_eq_true, if_false, h7, hr, if_true]
            rw [hbr]
            exact ⟨_, rfl, by simp [hvs],
              Or.inr ⟨rfl, rfl, rfl, rfl, rfl, rfl⟩⟩
          · have hrf : headerDateOutOfRange
                (scanHeaderLine (trimCrLf raw)).2.2 = false := by
              simpa using hr
            have hbr : imd_read_file_header (some raw) =
                (0, some ⟨(scanHeaderLine (trimCrLf raw)).2.1,
                  (scanHeaderLine (trimCrLf raw)).2.2.getD 0 0,
                  (scanHeaderLine (trimCrLf raw)).2.2.getD 1 0,
                  (scanHeaderLine (trimCrLf raw)).2.2.getD 2 0,
                  (scanHeaderLine (trimCrLf raw)).2.2.getD 3 0,
                  (scanHeaderLine (trimCrLf raw)).2.2.getD 4 0,
                  (scanHeaderLine (trimCrLf raw)).2.2.getD 5 0⟩) := by
              simp only [imd_read_file_header, hp, Bool.not_true,
                Bool.false_eq_true, if_false, h7, hrf]
            rw [hbr]
            exact ⟨_, rfl, by simp [hvs],
              Or.inl ⟨h7e, hrf, rfl, rfl, rfl, rfl, rfl, rfl⟩⟩
    · have hpf : startsWithIMD (trimCrLf raw) = false := by simpa using hp
      have hcode : imd_read_file_header (some raw) =
          (IMD_ERR_READ_ERROR, none) := by
        simp [imd_read_file_header, hpf]
      refine ⟨Or.inr (by rw [hcode]), ?_, ?_, ?_⟩
      · intro hc; cases hc
      · intro l hl
        cases hl
        rw [hcode]
        constructor
        · intro h0; cases h0
        · intro hc; exact absurd hc hp
      · intro l hl hpl
        cases hl
        exact absurd hpl hp

/-- Witness for C9 at the concrete five-byte line IMD-space-x: the
prefix is present, so the read succeeds. -/
theorem C9_witness :
    (imd_read_file_header (some [73, 77, 68, 32, 120])).1 = 0 :=
  ((C9_read_file_header_spec (some [73, 77, 68, 32, 120])).2.2.1
    [73, 77, 68, 32, 120] rfl).mpr (by decide)

/-- Invariant of the final scan of imd_calculate_best_interleave: the
running pair (best, max) keeps the first index whose tally strictly
exceeds every earlier one. -/
theorem bestScan_range'_spec (f : Nat → Nat) :
    ∀ (len lo b m : Nat), 1 ≤ lo → 1 ≤ b →
      (f b = m ∨ (b = 1 ∧ m = 0)) →
      (∀ d, 1 ≤ d → d < lo → f d ≤ m) →
      (∀ d, 1 ≤ d → d < b → f d < m) →
      (b < lo ∨ (b = 1 ∧ m = 0)) →
      1 ≤ ((List.range' lo len).foldl
          (fun bm i => if f i > bm.2 then (i, f i) else bm) (b, m)).1 ∧
      (f ((List.range' lo len).foldl
          (fun bm i => if f i > bm.2 then (i, f i) else bm) (b, m)).1 =
        ((List.range' lo len).foldl
          (fun bm i => if f i > bm.2 then (i, f i) else bm) (b, m)).2 ∨
        (((List.range' lo len).foldl
          (fun bm i => if f i > bm.2 then (i, f i) else bm) (b, m)).1 = 1 ∧
         ((List.range' lo len).foldl
          (fun bm i => if f i > bm.2 then (i, f i) else bm) (b, m)).2 = 0)) ∧
      (∀ d, 1 ≤ d → d < lo + len →
        f d ≤ ((List.range' lo len).foldl
          (fun bm i => if f i > bm.2 then (i, f i) else bm) (b, m)).2) ∧
      (∀ d, 1 ≤ d → d < ((List.range' lo len).foldl
          (fun bm i => if f i > bm.2 then (i, f i) else bm) (b, m)).1 →
        f d < ((List.range' lo len).foldl
          (fun bm i => if f i > bm.2 then (i, f i) else bm) (b, m)).2) ∧
      (((List.range' lo len).foldl
          (fun bm i => if f i > bm.2 then (i, f i) else bm) (b, m)).1 < lo + len ∨
        (((List.range' lo len).foldl
          (fun bm i => if f i > bm.2 then (i, f i) else bm) (b, m)).1 = 1 ∧
         ((List.range' lo len).foldl
          (fun bm i => if f i > bm.2 then (i, f i) else bm) (b, m)).2 = 0)) := by
  intro len
  induction len with
  | zero =>
    intro lo b m hlo hb hfb hle hlt hbl
    rw [show List.range' lo 0 = [] from rfl, List.foldl_nil]
    refine ⟨hb, hfb, ?_, hlt, ?_⟩
    · intro d h1 h2
      exact hle d h1 (by omega)
    · rcases hbl with h | h
      · left; omega
      · right; exact h
  | succ len ih =>
    intro lo b m hlo hb hfb hle hlt hbl
    rw [List.range'_succ, List.foldl_cons]
    by_cases hgt : f lo > m
    · rw [if_pos hgt]
      have hstep := ih (lo + 1) lo (f lo) (by omega) (by omega) (Or.inl rfl)
        (by
          intro d h1 h2
          rcases Nat.lt_or_ge d lo with h | h
          · exact le_of_lt (lt_of_le_of_lt (hle d h1 h) hgt)
          · have hd : d = lo := by omega
            subst hd; exact le_refl _)
        (by
          intro d h1 h2
          exact lt_of_le_of_lt (hle d h1 h2) hgt)
        (Or.inl (by omega))
      refine ⟨hstep.1, hstep.2.1, ?_, hstep.2.2.2.1, ?_⟩
      · intro d h1 h2
        exact hstep.2.2.1 d h1 (by omega)
      · rcases hstep.2.2.2.2 with h | h
        · left; omega
        · right; exact h
    · rw [if_neg hgt]
      have hstep := ih (lo + 1) b m (by omega) hb hfb
        (by
          intro d h1 h2
          rcases Nat.lt_or_ge d lo with h | h
          · exact hle d h1 h
          · have hd : d = lo := by omega
            subst hd; omega)
        hlt
        (by
          rcases hbl with h | h
          · left; omega
          · right; exact h)
      refine ⟨hstep.1, hstep.2.1, ?_, hstep.2.2.2.1, ?_⟩
      · intro d h1 h2
        exact hstep.2.2.1 d h1 (by omega)
      · rcases hstep.2.2.2.2 with h | h
        · left; omega
        · right; exact h

/-- Claim C8: imd_calculate_best_interleave returns 1 for tracks with
fewer than two sectors; for larger tracks it returns a distance in
1 .. n-1 whose tally is maximal, and every strictly smaller distance
has a strictly smaller tally (first-seen maximum); in particular it
returns 2 on smap [1,5,2,6,3,7,4,8] and 1 on smap [1,2,3,4,5,6,7,8]. -/
theorem C8_best_interleave_spec :
    (∀ t : ImdTrackInfo, t.numSectors < 2 →
      imd_calculate_best_interleave t = 1) ∧
    (∀ t : ImdTrackInfo, 2 ≤ t.numSectors →
      1 ≤ imd_calculate_best_interleave t ∧
      imd_calculate_best_interleave t < t.numSectors ∧
      (∀ d, 1 ≤ d → d < t.numSectors →
        interleaveTally t d ≤
          interleaveTally t (imd_calculate_best_interleave t)) ∧
      (∀ d, 1 ≤ d → d < imd_calculate_best_interleave t →
        interleaveTally t d <
          interleaveTally t (imd_calculate_best_interleave t))) ∧
    imd_calculate_best_interleave exTrackC8A = 2 ∧
    imd_calculate_best_interleave exTrackC8B = 1 := by
  refine ⟨?_, ?_, rfl, rfl⟩
  · intro t ht
    simp [imd_calculate_best_interleave, ht]
  · intro t ht
    have hnot : ¬ t.numSectors < 2 := by omega
    have hspec := bestScan_range'_spec (interleaveTally t) (t.numSectors - 1)
      1 1 0 (by omega) (by omega) (Or.inr ⟨rfl, rfl⟩)
      (by intro d h1 h2; omega) (by intro d h1 h2; omega)
      (Or.inr ⟨rfl, rfl⟩)
    obtain ⟨hge, hfb, hmax, hmin, hbound⟩ := hspec
    have heq : imd_calculate_best_interleave t =
        ((List.range' 1 (t.numSectors - 1)).foldl
          (fun bm i => if interleaveTally t i > bm.2 then (i, interleaveTally t i)
            else bm) (1, 0)).1 := by
      simp [imd_calculate_best_interleave, hnot, bestScan]
    set r := (List.range' 1 (t.numSectors - 1)).foldl
      (fun bm i => if interleaveTally t i > bm.2 then (i, interleaveTally t i)
        else bm) (1, 0) with hr
    have hfr : interleaveTally t r.1 = r.2 := by
      rcases hfb with h | h
      · exact h
      · rw [h.1, h.2]
        have h1 := hmax 1 (by omega) (by omega)
        rw [h.2] at h1
        omega
    rw [heq]
    refine ⟨hge, ?_, ?_, ?_⟩
    · rcases hbound with h | h
      · omega
      · rw [h.1]; omega
    · intro d h1 h2
      rw [hfr]
      exact hmax d h1 (by omega)
    · intro d h1 h2
      rw [hfr]
      exact hmin d h1 h2

/-- Witness for C8 at the interleaved example track: the maximality
property instantiated at distance 1. -/
theorem C8_witness :
    2 ≤ exTrackC8A.numSectors ∧ (1 : Nat) ≤ 1 ∧ 1 < exTrackC8A.numSectors ∧
    interleaveTally exTrackC8A 1 ≤
      interleaveTally exTrackC8A (imd_calculate_best_interleave exTrackC8A) :=
  ⟨by decide, by omega, by decide,
    (C8_best_interleave_spec.2.1 exTrackC8A (by decide)).2.2.1 1 (by omega)
      (by decide)⟩

/-- The per-sector output flag is 0x00 exactly for unavailable input,
under every option combination. -/
theorem sectorFinalFlag_eq_zero_iff (opts : ImdWriteOpts) (ssize flag : Nat)
    (chunk : List Nat) :
    sectorFinalFlag opts ssize flag chunk = 0 ↔ flag = 0 := by
  unfold sectorFinalFlag
  by_cases hf : flag = 0
  · simp [hf]
  · rw [if_neg hf]
    simp only [hf, iff_false]
    cases (IMD_SDR_HAS_DAM flag && !opts.forceNonDeleted) <;>
      cases (IMD_SDR_HAS_ERR flag && !opts.forceNonBad) <;>
      (repeat' split) <;> simp

/-- Under force-compress, the output flag of a data-bearing sector is
a compressed code exactly when the sector bytes are uniform. -/
theorem sectorFinalFlag_force_compress (opts : ImdWriteOpts) (ssize flag : Nat)
    (chunk : List Nat) (hmode : opts.compressionMode = 1) (hflag : flag ≠ 0)
    (hsz : 0 < ssize) :
    IMD_SDR_IS_COMPRESSED (sectorFinalFlag opts ssize flag chunk) =
      imd_is_uniform chunk := by
  unfold sectorFinalFlag
  rw [if_neg hflag, hmode]
  have hs : (decide (ssize > 0)) = true := by simpa using hsz
  cases hu : imd_is_uniform chunk <;>
    simp only [hs, hu, Bool.and_true, Bool.and_false, Bool.true_and] <;>
    cases (IMD_SDR_HAS_DAM flag && !opts.forceNonDeleted) <;>
      cases (IMD_SDR_HAS_ERR flag && !opts.forceNonBad) <;>
      (repeat' split) <;> first | rfl | contradiction

/-- Inversion of a successful flag emission: the track was loaded, the
interleave stage succeeded, the data-consistency guard passed, and the
flags are the per-sector decisions on the written track. -/
theorem write_flags_inversion (t : ImdTrackInfo) (opts : ImdWriteOpts)
    (flags : List Nat) (hok : imd_write_track_imd_flags t opts = .ok flags) :
    t.loaded = true ∧ ∃ tw, trackToWrite t opts = .ok tw ∧
      (tw.sectorSize > 0 && tw.data.length < tw.numSectors) = false ∧
      flags = (List.range tw.numSectors).map (fun i =>
        sectorFinalFlag opts tw.sectorSize (tw.sflag.getD i 0)
          (tw.data.getD i [])) := by
  unfold imd_write_track_imd_flags at hok
  cases hld : t.loaded with
  | false => rw [hld] at hok; cases hok
  | true =>
    rw [hld] at hok
    simp only [Bool.not_true, Bool.false_eq_true, if_false] at hok
    split at hok
    · cases hok
    · rename_i tw htw
      split at hok
      · cases hok
      · rename_i hg
        cases hok
        exact ⟨rfl, tw, htw, by simpa using hg, rfl⟩

/-- Element access into a map over List.range. -/
theorem getD_map_range {α : Type} (f : Nat → α) (n i : Nat) (d : α)
    (h : i < n) : ((List.range n).map f).getD i d = f i := by
  rw [List.getD_eq_getElem?_getD, List.getElem?_map, List.getElem?_range h]
  rfl

/-- Claim C7 (amended): for a track written by imd_write_track_imd
with compression mode force-compress, every sector of the
as-written track whose sflag is nonzero is emitted with a compressed
(even, nonzero) code exactly when its data chunk is uniform, and every
sector with sflag 0x00 is emitted as 0x00 regardless of uniformity. -/
theorem C7_force_compress_uniform_amended (track tw : ImdTrackInfo)
    (opts : ImdWriteOpts) (flags : List Nat) (i : Nat)
    (hmode : opts.compressionMode = 1)
    (htw : trackToWrite track opts = .ok tw)
    (hok : imd_write_track_imd_flags track opts = .ok flags)
    (hi : i < tw.numSectors) (hsz : 0 < tw.sectorSize) :
    (tw.sflag.getD i 0 = 0 → flags.getD i 1 = 0) ∧
    (tw.sflag.getD i 0 ≠ 0 →
      (IMD_SDR_IS_COMPRESSED (flags.getD i 1) = true ↔
        imd_is_uniform (tw.data.getD i []) = true)) := by
  obtain ⟨hld, tw', htw', hg, hform⟩ := write_flags_inversion track opts flags hok
  rw [htw] at htw'
  cases htw'
  have hfd : flags.getD i 1 = sectorFinalFlag opts tw.sectorSize
      (tw.sflag.getD i 0) (tw.data.getD i []) := by
    rw [hform]
    exact getD_map_range _ _ _ _ hi
  constructor
  · intro h0
    rw [hfd]
    exact (sectorFinalFlag_eq_zero_iff opts tw.sectorSize _ _).mpr h0
  · intro hne
    rw [hfd, sectorFinalFlag_force_compress opts tw.sectorSize _ _ hmode hne hsz]

/-- Witness for C7 at a one-sector track with normal, non-uniform
data under force-compress: the emitted flag 0x01 is not compressed and
the chunk is not uniform. -/
theorem C7_witness :
    exOptsFC.compressionMode = 1 ∧
    trackToWrite exTrackC7w exOptsFC = .ok exTrackC7w ∧
    imd_write_track_imd_flags exTrackC7w exOptsFC = .ok [1] ∧
    (0 : Nat) < exTrackC7w.numSectors ∧ 0 < exTrackC7w.sectorSize ∧
    (exTrackC7w.sflag.getD 0 0 ≠ 0 →
      (IMD_SDR_IS_COMPRESSED (([1] : List Nat).getD 0 1) = true ↔
        imd_is_uniform (exTrackC7w.data.getD 0 []) = true)) :=
  ⟨rfl, rfl, rfl, by decide, by decide,
    (C7_force_compress_uniform_amended exTrackC7w exTrackC7w exOptsFC [1] 0
      rfl rfl rfl (by decide) (by decide)).2⟩

theorem findFreePos_of_free (used : List Bool) (cur fuel : Nat)
    (h : used.getD cur false = false) : findFreePos used cur fuel = cur := by
  cases fuel with
  | zero => rfl
  | succ f => unfold findFreePos; rw [h]; simp

theorem findFreePos_min (used : List Bool) (n : Nat) (hn : used.length = n) :
    ∀ (j : Nat) (cur fuel : Nat), cur < n → j < fuel →
      used.getD ((cur + j) % n) false = false →
      (∀ j', j' < j → used.getD ((cur + j') % n) false = true) →
      findFreePos used cur fuel = (cur + j) % n := by
  intro j
  induction j with
  | zero =>
    intro cur fuel hcur hfuel hfree _
    rw [Nat.add_zero, Nat.mod_eq_of_lt hcur] at hfree
    rw [findFreePos_of_free used cur fuel hfree, Nat.add_zero,
      Nat.mod_eq_of_lt hcur]
  | succ j ih =>
    intro cur fuel hcur hfuel hfree hmin
    have hcur_used : used.getD cur false = true := by
      have := hmin 0 (Nat.succ_pos j)
      rwa [Nat.add_zero, Nat.mod_eq_of_lt hcur] at this
    cases fuel with
    | zero => omega
    | succ f =>
      unfold findFreePos
      rw [hcur_used]
      simp only [if_true, hn]
      have hn0 : 0 < n := by omega
      have harith : ∀ m : Nat, ((cur + 1) % n + m) % n = (cur + (m + 1)) % n := by
        intro m
        rw [Nat.mod_add_mod]
        congr 1
        omega
      have hres := ih ((cur + 1) % n) f (Nat.mod_lt _ hn0) (by omega)
        (by rw [harith j]; exact hfree)
        (by
          intro j' hj'
          rw [harith j']
          exact hmin (j' + 1) (by omega))
      rw [hres, harith j]
theorem getD_set_self {α : Type} : ∀ (l : List α) (p : Nat) (v d : α),
    p < l.length → (l.set p v).getD p d = v := by
  intro l
  induction l with
  | nil => intro p v d h; simp at h
  | cons x xs ih =>
    intro p v d h
    cases p with
    | zero => rfl
    | succ q =>
      simp only [List.set_cons_succ, List.getD_cons_succ]
      exact ih q v d (by simpa using h)

theorem getD_set_ne {α : Type} : ∀ (l : List α) (p q : Nat) (v d : α),
    p ≠ q → (l.set p v).getD q d = l.getD q d := by
  intro l
  induction l with
  | nil => intro p q v d h; rfl
  | cons x xs ih =>
    intro p q v d h
    cases p with
    | zero =>
      cases q with
      | zero => exact absurd rfl h
      | succ q2 => rfl
    | succ p2 =>
      cases q with
      | zero => rfl
      | succ q2 =>
        simp only [List.set_cons_succ, List.getD_cons_succ]
        exact ih p2 q2 v d (by omega)

theorem count_set_aux : ∀ (l : List Bool) (p : Nat), p < l.length →
    l.getD p false = false → (l.set p true).count false + 1 = l.count false := by
  intro l
  induction l with
  | nil => intro p h; simp at h
  | cons x xs ih =>
    intro p hp hfree
    cases p with
    | zero =>
      simp only [List.getD_cons_zero] at hfree
      subst hfree
      simp [List.count_cons]
    | succ q =>
      simp only [List.getD_cons_succ] at hfree
      simp only [List.set_cons_succ, List.count_cons]
      have := ih q (by simpa using hp) hfree
      omega

theorem findFreePos_found (used : List Bool) (n : Nat) (hn : used.length = n)
    (cur : Nat) (hcur : cur < n)
    (hex : ∃ x, x < n ∧ used.getD x false = false) :
    findFreePos used cur n < n ∧
    used.getD (findFreePos used cur n) false = false := by
  obtain ⟨x, hx, hxf⟩ := hex
  have hn0 : 0 < n := by omega
  have hwit : used.getD ((cur + (x + n - cur) % n) % n) false = false := by
    have he : (cur + (x + n - cur) % n) % n = x := by
      rw [Nat.add_mod_mod]
      have h2 : cur + (x + n - cur) = x + n := by omega
      rw [h2, Nat.add_mod_right, Nat.mod_eq_of_lt hx]
    rw [he]; exact hxf
  have hP : ∃ j, used.getD ((cur + j) % n) false = false := ⟨_, hwit⟩
  have hPj := Nat.find_spec hP
  have hjlt : Nat.find hP < n :=
    lt_of_le_of_lt (Nat.find_min' hP hwit) (Nat.mod_lt _ hn0)
  have heq := findFreePos_min used n hn (Nat.find hP) cur n hcur hjlt hPj (by
    intro j' hj'
    have hne := Nat.find_min hP hj'
    cases hgd : used.getD ((cur + j') % n) false
    · exact absurd hgd hne
    · rfl)
  rw [heq]
  exact ⟨Nat.mod_lt _ hn0, hPj⟩

theorem placeList_spec (n k : Nat) : ∀ (count : Nat) (used : List Bool) (cur : Nat),
    used.length = n → cur < n → count ≤ used.count false →
    (placeList n k used cur count).length = count ∧
    (placeList n k used cur count).Nodup ∧
    (∀ p ∈ placeList n k used cur count, p < n ∧ used.getD p false = false) := by
  intro count
  induction count with
  | zero => intro used cur _ _ _; simp [placeList]
  | succ c ih =>
    intro used cur hlen hcur hcnt
    have hex : ∃ x, x < n ∧ used.getD x false = false := by
      have hmem : false ∈ used := by
        by_contra hmem
        have h0 : used.count false = 0 := List.count_eq_zero.mpr hmem
        omega
      obtain ⟨i, hi, hgi⟩ := List.getElem_of_mem hmem
      refine ⟨i, by omega, ?_⟩
      rw [List.getD_eq_getElem?_getD, List.getElem?_eq_getElem hi]
      simpa using hgi
    obtain ⟨hplt, hpfree⟩ := findFreePos_found used n hlen cur hcur hex
    unfold placeList
    have hlen' : (used.set (findFreePos used cur n) true).length = n := by
      simp [hlen]
    have hcnt' : c ≤ (used.set (findFreePos used cur n) true).count false := by
      have := count_set_aux used (findFreePos used cur n) (by omega) hpfree
      omega
    have hn0 : 0 < n := by omega
    have hcur' : (findFreePos used cur n + k) % n < n := Nat.mod_lt _ hn0
    obtain ⟨hl, hnd, hmemp⟩ := ih (used.set (findFreePos used cur n) true)
      ((findFreePos used cur n + k) % n) hlen' hcur' hcnt'
    refine ⟨by simp [hl], ?_, ?_⟩
    · rw [List.nodup_cons]
      refine ⟨?_, hnd⟩
      intro hin
      have h2 := (hmemp _ hin).2
      rw [getD_set_self used _ true false (by omega)] at h2
      cases h2
    · intro q hq
      rcases List.mem_cons.mp hq with rfl | hq'
      · exact ⟨hplt, hpfree⟩
      · obtain ⟨h1, h2⟩ := hmemp q hq'
        refine ⟨h1, ?_⟩
        by_cases hpq : findFreePos used cur n = q
        · subst hpq
          rw [getD_set_self used _ true false (by omega)] at h2
          cases h2
        · rwa [getD_set_ne used _ q true false hpq] at h2


theorem scatter_length {α : Type} : ∀ (ps : List Nat) (vs init : List α),
    (scatter ps vs init).length = init.length := by
  intro ps
  induction ps with
  | nil => intro vs init; cases vs <;> rfl
  | cons p ps ih =>
    intro vs init
    cases vs with
    | nil => rfl
    | cons v vs2 =>
      show (scatter ps vs2 (init.set p v)).length = init.length
      rw [ih vs2 (init.set p v), List.length_set]

theorem take_set_succ {α : Type} : ∀ (l : List α) (i : Nat) (v : α),
    i < l.length → (l.set i v).take (i + 1) = l.take i ++ [v] := by
  intro l
  induction l with
  | nil => intro i v h; simp at h
  | cons x xs ih =>
    intro i v h
    cases i with
    | zero => rfl
    | succ j =>
      simp only [List.set_cons_succ, List.take_succ_cons, List.cons_append]
      rw [ih j v (by simpa using h)]

theorem scatter_range' {α : Type} : ∀ (j i : Nat) (vals init : List α),
    init.length = i + j → vals.length = j →
    scatter (List.range' i j) vals init = init.take i ++ vals := by
  intro j
  induction j with
  | zero =>
    intro i vals init hinit hvals
    rw [List.length_eq_zero] at hvals
    subst hvals
    show init = init.take i ++ []
    rw [List.append_nil, List.take_of_length_le (by omega)]
  | succ j ih =>
    intro i vals init hinit hvals
    cases vals with
    | nil => simp at hvals
    | cons v vs =>
      rw [List.range'_succ]
      show scatter (List.range' (i + 1) j) vs (init.set i v) = init.take i ++ v :: vs
      rw [ih (i + 1) vs (init.set i v) (by simp [hinit]; omega) (by simpa using hvals)]
      rw [take_set_succ init i v (by omega)]
      simp

theorem map_getD_range {α : Type} : ∀ (l : List α) (d : α),
    (List.range l.length).map (fun i => l.getD i d) = l := by
  intro l
  induction l with
  | nil => intro d; rfl
  | cons x xs ih =>
    intro d
    rw [show (x :: xs).length = xs.length + 1 from rfl, List.range_succ_eq_map]
    simp only [List.map_cons, List.getD_cons_zero, List.map_map]
    congr 1
    have : ((fun i => (x :: xs).getD i d) ∘ Nat.succ) = fun i => xs.getD i d := by
      funext i
      rfl
    rw [this]
    exact ih d

theorem map_indexOf_nodup : ∀ (l : List Nat), l.Nodup →
    l.map (fun v => l.indexOf v) = List.range l.length := by
  intro l
  induction l with
  | nil => intro h; rfl
  | cons x xs ih =>
    intro hnd
    rw [List.nodup_cons] at hnd
    rw [show (x :: xs).length = xs.length + 1 from rfl, List.range_succ_eq_map]
    simp only [List.map_cons, List.indexOf_cons_self]
    congr 1
    have hmap : xs.map (fun v => (x :: xs).indexOf v) =
        xs.map (fun v => xs.indexOf v + 1) := by
      apply List.map_congr_left
      intro y hy
      have hne : y ≠ x := fun he => hnd.1 (he ▸ hy)
      rw [List.indexOf_cons_ne xs (by exact fun he => hne he.symm)]
    rw [hmap, ← ih hnd.2, List.map_map]
    rfl


theorem placeList_one_gen (n : Nat) : ∀ (j : Nat) (used : List Bool) (m : Nat),
    used.length = n → m + j = n →
    (∀ x, x < n → (used.getD x false = false ↔ m ≤ x)) →
    placeList n 1 used (m % n) j = List.range' m j := by
  intro j
  induction j with
  | zero => intro used m _ _ _; rfl
  | succ j ih =>
    intro used m hlen hmj hinv
    have hn0 : 0 < n := by omega
    have hm : m < n := by omega
    have hmod : m % n = m := Nat.mod_eq_of_lt hm
    have hfree : used.getD m false = false := (hinv m hm).mpr (le_refl m)
    unfold placeList
    rw [hmod, findFreePos_of_free used m n hfree]
    have hinv' : ∀ x, x < n →
        ((used.set m true).getD x false = false ↔ m + 1 ≤ x) := by
      intro x hx
      by_cases hxm : m = x
      · subst hxm
        rw [getD_set_self used m true false (by omega)]
        constructor
        · intro h; cases h
        · intro h; omega
      · rw [getD_set_ne used m x true false hxm]
        rw [hinv x hx]
        omega
    have := ih (used.set m true) (m + 1) (by simp [hlen]) (by omega) hinv'
    show m :: placeList n 1 (used.set m true) ((m + 1) % n) j = List.range' m (j + 1)
    rw [this, List.range'_succ]

/-- Claim C1 (amended): applying interleave factor 1 to a loaded track
whose sector map is strictly increasing is a no-op, leaving the track
(maps and data included) exactly as it was. -/
theorem C1_interleave_one_noop_sorted (t : ImdTrackInfo)
    (hld : t.loaded = true) (hn : 2 ≤ t.numSectors)
    (hsorted : t.smap.Pairwise (· < ·))
    (hsl : t.smap.length = t.numSectors)
    (hcl : t.cmap.length = t.numSectors)
    (hhl : t.hmap.length = t.numSectors)
    (hfl : t.sflag.length = t.numSectors)
    (hdl : t.data.length = t.numSectors) :
    imd_apply_interleave t 1 = .ok t := by
  have hnd : t.smap.Nodup := List.Pairwise.imp (fun h => Nat.ne_of_lt h) hsorted
  have hsortEq : interleaveSorted t = t.smap := by
    unfold interleaveSorted
    exact List.Sorted.insertionSort_eq
      (List.Pairwise.imp (fun h => Nat.le_of_lt h) hsorted)
  have hl2p : interleaveL2P t = List.range t.numSectors := by
    unfold interleaveL2P
    rw [hsortEq, map_indexOf_nodup t.smap hnd, hsl]
  have hpos : interleavePositions t 1 = List.range t.numSectors := by
    unfold interleavePositions
    have h0 : (0 : Nat) = 0 % t.numSectors := by
      rw [Nat.zero_mod]
    rw [h0]
    have := placeList_one_gen t.numSectors t.numSectors
      (List.replicate t.numSectors false) 0 (by simp) (by omega)
      (by
        intro x hx
        rw [List.getD_eq_getElem?_getD, List.getElem?_replicate]
        simp [hx])
    rw [this]
    rw [List.range_eq_range']
  have hscat : ∀ (X : List Nat), X.length = t.numSectors →
      scatter (interleavePositions t 1)
        ((interleaveL2P t).map (fun j => X.getD j 0)) X = X := by
    intro X hX
    rw [hpos, hl2p, List.range_eq_range']
    rw [scatter_range' t.numSectors 0 _ X (by omega) (by simp [← hX])]
    have : (List.range X.length).map (fun i => X.getD i 0) = X := map_getD_range X 0
    rw [← hX] at *
    simp only [List.range_eq_range'] at this
    rw [this]
    rfl
  have hscatD : scatter (interleavePositions t 1)
      ((interleaveL2P t).map (fun j => t.data.getD j [])) t.data = t.data := by
    rw [hpos, hl2p, List.range_eq_range']
    rw [scatter_range' t.numSectors 0 _ t.data (by omega) (by simp [← hdl])]
    have h2 : (List.range t.data.length).map (fun i => t.data.getD i []) = t.data :=
      map_getD_range t.data []
    rw [hdl, List.range_eq_range'] at h2
    rw [h2]
    rfl
  unfold imd_apply_interleave
  have hg : (!t.loaded || t.data.isEmpty || decide (t.numSectors < 2) ||
      decide (1 < 1)) = false := by
    rw [hld]
    have : t.data.isEmpty = false := by
      cases hd : t.data
      · rw [hd] at hdl; simp at hdl; omega
      · rfl
    rw [this]
    simp
    omega
  rw [hg]
  simp only [Bool.false_eq_true, if_false]
  rw [hl2p]
  have hany : (List.range t.numSectors).any (fun j => decide (j ≥ t.numSectors)) = false := by
    rw [List.any_eq_false]
    intro x hx
    simp at hx ⊢
    omega
  rw [hany]
  simp only [Bool.false_eq_true, if_false]
  rw [← hl2p]
  rw [hscat t.smap hsl, hscat t.cmap hcl, hscat t.hmap hhl, hscat t.sflag hfl, hscatD]

theorem C1_witness :
    exTrackC1s.loaded = true ∧ 2 ≤ exTrackC1s.numSectors ∧
    exTrackC1s.smap.Pairwise (· < ·) ∧
    imd_apply_interleave exTrackC1s 1 = .ok exTrackC1s :=
  ⟨rfl, by decide, by decide,
    C1_interleave_one_noop_sorted exTrackC1s rfl (by decide) (by decide)
      rfl rfl rfl rfl rfl⟩

theorem scatter_getD {α : Type} : ∀ (ps : List Nat) (vs init : List α) (d : α),
    ps.Nodup → ps.length = vs.length → (∀ p ∈ ps, p < init.length) →
    ∀ q, (scatter ps vs init).getD q d =
      if q ∈ ps then vs.getD (ps.indexOf q) d else init.getD q d := by
  intro ps
  induction ps with
  | nil =>
    intro vs init d _ _ _ q
    cases vs <;> simp [scatter]
  | cons p ps ih =>
    intro vs init d hnd hlen hlt q
    cases vs with
    | nil => simp at hlen
    | cons v vs =>
      rw [List.nodup_cons] at hnd
      have hplt : p < init.length := hlt p (List.mem_cons_self p ps)
      have hlt' : ∀ x ∈ ps, x < (init.set p v).length := by
        intro x hx
        rw [List.length_set]
        exact hlt x (List.mem_cons_of_mem p hx)
      have hIH := ih vs (init.set p v) d hnd.2 (by simpa using hlen) hlt' q
      show (scatter ps vs (init.set p v)).getD q d = _
      rw [hIH]
      by_cases hq : q ∈ ps
      · have hqp : q ≠ p := fun he => hnd.1 (he ▸ hq)
        rw [if_pos hq, if_pos (List.mem_cons_of_mem p hq)]
        rw [List.indexOf_cons_ne ps (fun he => hqp he.symm)]
        rfl
      · by_cases hqp : q = p
        · subst hqp
          rw [if_neg hq, if_pos (List.mem_cons_self q ps)]
          rw [List.indexOf_cons_self]
          rw [getD_set_self init q v d hplt]
          rfl
        · rw [if_neg hq, if_neg (by
            intro hmem
            rcases List.mem_cons.mp hmem with h | h
            · exact hqp h
            · exact hq h)]
          exact getD_set_ne init p q v d (fun he => hqp he.symm)

theorem perm_range_of_nodup_lt (l : List Nat) (n : Nat) (hnd : l.Nodup)
    (hlt : ∀ x ∈ l, x < n) (hlen : l.length = n) :
    l.Perm (List.range n) := by
  have hsub : l ⊆ List.range n := by
    intro x hx
    exact List.mem_range.mpr (hlt x hx)
  have hsp := List.Nodup.subperm hnd hsub
  exact hsp.perm_of_length_le (by rw [List.length_range, hlen])

theorem scatter_perm : ∀ (ps vs init : List Nat),
    ps.Perm (List.range init.length) → ps.length = vs.length →
    (scatter ps vs init).Perm vs := by
  intro ps vs init hperm hlen
  have hnd : ps.Nodup := hperm.nodup_iff.mpr (List.nodup_range init.length)
  have hmem : ∀ q, q ∈ ps ↔ q < init.length := by
    intro q
    rw [hperm.mem_iff, List.mem_range]
  have hlt : ∀ p ∈ ps, p < init.length := fun p hp => (hmem p).mp hp
  have hpl : ps.length = init.length := by
    rw [hperm.length_eq, List.length_range]
  have hgd := scatter_getD ps vs init 0 hnd hlen hlt
  have hsl : (scatter ps vs init).length = init.length := scatter_length ps vs init
  have heq : scatter ps vs init =
      (List.range init.length).map (fun q => vs.getD (ps.indexOf q) 0) := by
    apply List.ext_getElem
    · rw [hsl, List.length_map, List.length_range]
    · intro i h1 h2
      have hi : i < init.length := by rwa [hsl] at h1
      have hL : (scatter ps vs init).getD i 0 = vs.getD (ps.indexOf i) 0 := by
        rw [hgd i, if_pos ((hmem i).mpr hi)]
      rw [List.getD_eq_getElem?_getD, List.getElem?_eq_getElem h1] at hL
      simp only [Option.getD_some] at hL
      rw [hL]
      rw [List.getElem_map, List.getElem_range]
  rw [heq]
  have hidx : (List.range init.length).map (fun q => ps.indexOf q) |>.Perm
      (List.range init.length) := by
    apply perm_range_of_nodup_lt
    · apply List.Nodup.map_on ?_ (List.nodup_range init.length)
      intro x hx y hy hxy
      have hxm : x ∈ ps := (hmem x).mpr (List.mem_range.mp hx)
      have hym : y ∈ ps := (hmem y).mpr (List.mem_range.mp hy)
      have hx2 : ps.indexOf x < ps.length := List.indexOf_lt_length.mpr hxm
      have hy2 : ps.indexOf y < ps.length := List.indexOf_lt_length.mpr hym
      have := List.indexOf_get (l := ps) (a := x) hx2
      have := List.indexOf_get (l := ps) (a := y) hy2
      rw [← List.indexOf_get (l := ps) (a := x) hx2,
          ← List.indexOf_get (l := ps) (a := y) hy2]
      simp only [hxy]
    · intro x hx
      rcases List.mem_map.mp hx with ⟨q, hq, rfl⟩
      have : q ∈ ps := (hmem q).mpr (List.mem_range.mp hq)
      rw [← hpl]
      exact List.indexOf_lt_length.mpr this
    · rw [List.length_map, List.length_range]
  have hvl : vs.length = init.length := by omega
  have hmap2 : ((List.range init.length).map (fun q => ps.indexOf q)).map
      (fun j => vs.getD j 0) |>.Perm
      ((List.range init.length).map (fun j => vs.getD j 0)) := hidx.map _
  rw [List.map_map] at hmap2
  have hfin : (List.range init.length).map (fun j => vs.getD j 0) = vs := by
    rw [← hvl]
    exact map_getD_range vs 0
  rw [hfin] at hmap2
  exact hmap2

theorem apply_interleave_sflag_perm (t : ImdTrackInfo) (k : Nat)
    (tw : ImdTrackInfo)
    (hnd : t.smap.Nodup) (hsl : t.smap.length = t.numSectors)
    (hfl : t.sflag.length = t.numSectors)
    (hok : imd_apply_interleave t k = .ok tw) :
    tw.sflag.Perm t.sflag ∧ tw.numSectors = t.numSectors ∧
    tw.sectorSize = t.sectorSize := by
  unfold imd_apply_interleave at hok
  split at hok
  · cases hok
  · rename_i hguard
    dsimp only at hok
    split at hok
    · cases hok
    · cases hok
      refine ⟨?_, rfl, rfl⟩
      have hn2 : 2 ≤ t.numSectors := by
        by_contra hlt2
        refine hguard ?_
        have hd : decide (t.numSectors < 2) = true := decide_eq_true (by omega)
        simp [hd]
      have hl2p : (interleaveL2P t).Perm (List.range t.numSectors) := by
        unfold interleaveL2P
        have h1 : (interleaveSorted t).Perm t.smap := List.perm_insertionSort _ _
        have h2 := h1.map (fun v => t.smap.indexOf v)
        rw [map_indexOf_nodup t.smap hnd, hsl] at h2
        exact h2
      have hps : (interleavePositions t k).length = t.numSectors ∧
          (interleavePositions t k).Nodup ∧
          ∀ p ∈ interleavePositions t k, p < t.numSectors := by
        have := placeList_spec t.numSectors k t.numSectors
          (List.replicate t.numSectors false) 0
          (by simp) (by omega) (by simp)
        exact ⟨this.1, this.2.1, fun p hp => (this.2.2 p hp).1⟩
      have hpsperm : (interleavePositions t k).Perm (List.range t.numSectors) :=
        perm_range_of_nodup_lt _ _ hps.2.1 hps.2.2 hps.1
      have hvals : ((interleaveL2P t).map (fun j => t.sflag.getD j 0)).Perm t.sflag := by
        have h3 := hl2p.map (fun j => t.sflag.getD j 0)
        have h4 : (List.range t.numSectors).map (fun j => t.sflag.getD j 0) = t.sflag := by
          rw [← hfl]
          exact map_getD_range t.sflag 0
        rw [h4] at h3
        exact h3
      have hvl : ((interleaveL2P t).map (fun j => t.sflag.getD j 0)).length =
          t.numSectors := by
        rw [hvals.length_eq, hfl]
      have hsc := scatter_perm (interleavePositions t k)
        ((interleaveL2P t).map (fun j => t.sflag.getD j 0)) t.sflag
        (by rw [hfl]; exact hpsperm) (by omega)
      exact hsc.trans hvals

theorem trackToWrite_sflag_perm (t : ImdTrackInfo) (opts : ImdWriteOpts)
    (tw : ImdTrackInfo)
    (hnd : t.smap.Nodup) (hsl : t.smap.length = t.numSectors)
    (hfl : t.sflag.length = t.numSectors)
    (hok : trackToWrite t opts = .ok tw) :
    tw.sflag.Perm t.sflag ∧ tw.numSectors = t.numSectors := by
  unfold trackToWrite at hok
  split at hok
  · have := apply_interleave_sflag_perm t _ tw hnd hsl hfl hok
    exact ⟨this.1, this.2.1⟩
  · cases hok
    exact ⟨List.Perm.refl _, rfl⟩

/-- Claim C6 (amended): for a loaded track whose sector map is free of
duplicate IDs, a successful imd_write_track_imd emission preserves the
number of unavailable (0x00) sector records under every option
combination, and positionwise on the interleave-resolved track a
sector is emitted as 0x00 exactly when its working sflag is 0x00. -/
theorem C6_unavailable_preserved_amended (t : ImdTrackInfo) (opts : ImdWriteOpts)
    (flags : List Nat)
    (hnd : t.smap.Nodup)
    (hsl : t.smap.length = t.numSectors)
    (hfl : t.sflag.length = t.numSectors)
    (hok : imd_write_track_imd_flags t opts = .ok flags) :
    flags.count 0 = t.sflag.count 0 ∧
    ∀ tw, trackToWrite t opts = .ok tw →
      ∀ i, i < tw.numSectors → (flags.getD i 1 = 0 ↔ tw.sflag.getD i 0 = 0) := by
  obtain ⟨hld, tw, htw, hg, hform⟩ := write_flags_inversion t opts flags hok
  obtain ⟨hperm, hns⟩ := trackToWrite_sflag_perm t opts tw hnd hsl hfl htw
  have htl : tw.sflag.length = tw.numSectors := by
    rw [hperm.length_eq, hfl, hns]
  constructor
  · have hcnt1 : flags.count 0 =
        List.countP (fun i => tw.sflag.getD i 0 == 0) (List.range tw.numSectors) := by
      rw [hform]
      show List.countP (fun x => x == 0) _ = _
      rw [List.countP_map]
      apply List.countP_congr
      intro i _
      show (sectorFinalFlag opts tw.sectorSize (tw.sflag.getD i 0)
        (tw.data.getD i []) == 0) = true ↔ (tw.sflag.getD i 0 == 0) = true
      rw [beq_iff_eq, beq_iff_eq]
      exact sectorFinalFlag_eq_zero_iff opts tw.sectorSize _ _
    have hcnt2 : tw.sflag.count 0 =
        List.countP (fun i => tw.sflag.getD i 0 == 0) (List.range tw.numSectors) := by
      conv_lhs => rw [show tw.sflag =
        (List.range tw.sflag.length).map (fun i => tw.sflag.getD i 0) from
          (map_getD_range tw.sflag 0).symm]
      rw [htl]
      show List.countP (fun x => x == 0) _ = _
      rw [List.countP_map]
      rfl
    rw [hcnt1, ← hcnt2]
    exact hperm.count_eq 0
  · intro tw2 htw2 i hi
    rw [htw] at htw2
    injection htw2 with h
    subst h
    rw [hform]
    rw [getD_map_range _ _ i _ hi]
    exact sectorFinalFlag_eq_zero_iff opts tw.sectorSize _ _

theorem C6_witness :
    exTrackC6w.smap.Nodup ∧
    imd_write_track_imd_flags exTrackC6w exOptsFC = .ok [0, 2] ∧
    ([0, 2] : List Nat).count 0 = exTrackC6w.sflag.count 0 := by
  have hok : imd_write_track_imd_flags exTrackC6w exOptsFC = .ok [0, 2] := by rfl
  exact ⟨by decide, hok,
    (C6_unavailable_preserved_amended exTrackC6w exOptsFC [0, 2]
      (by decide) rfl rfl hok).1⟩
theorem getD_lt_eq {α : Type} [Inhabited α] (l : List α) (j : Nat)
    (h : j < l.length) : l.getD j default = l[j] := by
  rw [List.getD_eq_getElem?_getD, List.getElem?_eq_getElem h]
  rfl

theorem insLt_downward (tracks : List ImdTrackInfo) (cyl head : Nat)
    (hs : TracksSorted tracks) (i j : Nat) (hij : i ≤ j) (hj : j < tracks.length)
    (h : InsLt cyl head (tracks.getD j default)) :
    InsLt cyl head (tracks.getD i default) := by
  rcases Nat.eq_or_lt_of_le hij with rfl | hlt
  · exact h
  · have hi : i < tracks.length := by omega
    have hR := List.pairwise_iff_getElem.mp hs i j hi hj hlt
    rw [getD_lt_eq tracks j hj] at h
    rw [getD_lt_eq tracks i hi]
    unfold trackKeyLt at hR
    unfold InsLt at h ⊢
    omega

theorem insLt_upward (tracks : List ImdTrackInfo) (cyl head : Nat)
    (hs : TracksSorted tracks) (i j : Nat) (hij : i ≤ j) (hj : j < tracks.length)
    (h : ¬InsLt cyl head (tracks.getD i default)) :
    ¬InsLt cyl head (tracks.getD j default) := by
  rcases Nat.eq_or_lt_of_le hij with rfl | hlt
  · exact h
  · have hi : i < tracks.length := by omega
    have hR := List.pairwise_iff_getElem.mp hs i j hi hj hlt
    rw [getD_lt_eq tracks i hi] at h
    rw [getD_lt_eq tracks j hj]
    unfold trackKeyLt at hR
    unfold InsLt at h ⊢
    omega

theorem fii_loop_eq (tracks : List ImdTrackInfo) (cyl head low high fuel : Nat) :
    find_insertion_index_loop tracks cyl head low high (fuel + 1) =
      if low < high then
        (if InsLt cyl head (tracks.getD (low + (high - low) / 2) default) then
          find_insertion_index_loop tracks cyl head
            (low + (high - low) / 2 + 1) high fuel
        else find_insertion_index_loop tracks cyl head low
          (low + (high - low) / 2) fuel)
      else low := by
  show (if low < high then
      (if ((tracks.getD (low + (high - low) / 2) default).cyl < cyl ||
          ((tracks.getD (low + (high - low) / 2) default).cyl = cyl &&
           (tracks.getD (low + (high - low) / 2) default).head < head)) = true then
        find_insertion_index_loop tracks cyl head
          (low + (high - low) / 2 + 1) high fuel
      else find_insertion_index_loop tracks cyl head low
        (low + (high - low) / 2) fuel)
    else low) = _
  by_cases hlt : low < high
  · rw [if_pos hlt, if_pos hlt]
    by_cases hc : InsLt cyl head (tracks.getD (low + (high - low) / 2) default)
    · have hcb : ((tracks.getD (low + (high - low) / 2) default).cyl < cyl ||
          ((tracks.getD (low + (high - low) / 2) default).cyl = cyl &&
           (tracks.getD (low + (high - low) / 2) default).head < head)) = true := by
        simp only [Bool.or_eq_true, Bool.and_eq_true, decide_eq_true_eq]
        exact hc
      rw [if_pos hcb, if_pos hc]
    · have hcb : ¬((tracks.getD (low + (high - low) / 2) default).cyl < cyl ||
          ((tracks.getD (low + (high - low) / 2) default).cyl = cyl &&
           (tracks.getD (low + (high - low) / 2) default).head < head)) = true := by
        intro hb
        apply hc
        simpa only [Bool.or_eq_true, Bool.and_eq_true, decide_eq_true_eq,
          InsLt] using hb
      rw [if_neg hcb, if_neg hc]
  · rw [if_neg hlt, if_neg hlt]

theorem fii_loop_spec (tracks : List ImdTrackInfo) (cyl head : Nat)
    (hs : TracksSorted tracks) :
    ∀ fuel low high, high - low ≤ fuel → low ≤ high → high ≤ tracks.length →
    (∀ j, j < low → InsLt cyl head (tracks.getD j default)) →
    (∀ j, high ≤ j → j < tracks.length →
      ¬InsLt cyl head (tracks.getD j default)) →
    low ≤ find_insertion_index_loop tracks cyl head low high fuel ∧
    find_insertion_index_loop tracks cyl head low high fuel ≤ high ∧
    (∀ j, j < find_insertion_index_loop tracks cyl head low high fuel →
      InsLt cyl head (tracks.getD j default)) ∧
    (∀ j, find_insertion_index_loop tracks cyl head low high fuel ≤ j →
      j < tracks.length → ¬InsLt cyl head (tracks.getD j default)) := by
  intro fuel
  induction fuel with
  | zero =>
    intro low high hf hlh hhl hlo hhi
    have hl0 : find_insertion_index_loop tracks cyl head low high 0 = low := rfl
    rw [hl0]
    refine ⟨le_refl _, hlh, hlo, ?_⟩
    intro j hj hjl
    exact hhi j (by omega) hjl
  | succ fuel ih =>
    intro low high hf hlh hhl hlo hhi
    by_cases hlt : low < high
    · rw [fii_loop_eq, if_pos hlt]
      have hmlt : low + (high - low) / 2 < high := by
        have := Nat.div_lt_self (show 0 < high - low by omega) (show 1 < 2 by omega)
        omega
      have hmlen : low + (high - low) / 2 < tracks.length := by omega
      by_cases hc : InsLt cyl head (tracks.getD (low + (high - low) / 2) default)
      · rw [if_pos hc]
        obtain ⟨h1, h2, h3, h4⟩ := ih (low + (high - low) / 2 + 1) high
          (by omega) (by omega) hhl
          (fun j hj => insLt_downward tracks cyl head hs j _ (by omega) hmlen hc)
          hhi
        exact ⟨by omega, h2, h3, h4⟩
      · rw [if_neg hc]
        obtain ⟨h1, h2, h3, h4⟩ := ih low (low + (high - low) / 2)
          (by omega) (by omega) (by omega) hlo
          (fun j hj hjl => insLt_upward tracks cyl head hs _ j hj hjl hc)
        exact ⟨h1, by omega, h3, h4⟩
    · rw [fii_loop_eq, if_neg hlt]
      refine ⟨le_refl _, by omega, hlo, ?_⟩
      intro j hj hjl
      exact hhi j (by omega) hjl

theorem pairwise_set_same_key (l : List ImdTrackInfo) (i : Nat)
    (a : ImdTrackInfo) (hi : i < l.length)
    (hc : a.cyl = (l.getD i default).cyl) (hh : a.head = (l.getD i default).head)
    (hp : TracksSorted l) : TracksSorted (l.set i a) := by
  rw [getD_lt_eq l i hi] at hc hh
  unfold TracksSorted at hp ⊢
  rw [List.pairwise_iff_getElem] at hp ⊢
  intro x y hx hy hxy
  rw [List.length_set] at hx hy
  have hgx : (l.set i a)[x] = if i = x then a else l[x] := List.getElem_set _
  have hgy : (l.set i a)[y] = if i = y then a else l[y] := List.getElem_set _
  rw [hgx, hgy]
  by_cases hix : i = x <;> by_cases hiy : i = y
  · omega
  · rw [if_pos hix, if_neg hiy]
    have := hp x y hx hy hxy
    unfold trackKeyLt at this ⊢
    subst hix
    omega
  · rw [if_neg hix, if_pos hiy]
    have := hp x y hx hy hxy
    unfold trackKeyLt at this ⊢
    subst hiy
    omega
  · rw [if_neg hix, if_neg hiy]
    exact hp x y hx hy hxy

theorem set_append_cons {α : Type} : ∀ (A : List α) (x : α) (B : List α) (y : α),
    (A ++ x :: B).set A.length y = A ++ y :: B := by
  intro A
  induction A with
  | nil => intro x B y; rfl
  | cons a A ih =>
    intro x B y
    show a :: (A ++ x :: B).set A.length y = _
    rw [ih]
    rfl

theorem overwrite_sorted_aux (tracks : List ImdTrackInfo) (cyl head : Nat)
    (hs : TracksSorted tracks) (idx : Nat)
    (hfind : tracks.findIdx? (fun t => t.cyl = cyl && t.head = head) = some idx)
    (A B : ImdTrackInfo) (hBc : B.cyl = cyl) (hBh : B.head = head) :
    TracksSorted ((tracks.set idx A).set idx B) := by
  obtain ⟨hidx, hp, hmin⟩ := List.findIdx?_eq_some_iff_getElem.mp hfind
  simp only [Bool.and_eq_true, decide_eq_true_eq] at hp
  rw [List.set_set]
  apply pairwise_set_same_key tracks idx _ hidx ?_ ?_ hs
  · rw [getD_lt_eq tracks idx hidx, hBc]
    exact hp.1.symm
  · rw [getD_lt_eq tracks idx hidx, hBh]
    exact hp.2.symm

theorem insert_sorted_aux (tracks : List ImdTrackInfo) (cyl head : Nat)
    (hs : TracksSorted tracks)
    (hfind : tracks.findIdx? (fun t => t.cyl = cyl && t.head = head) = none)
    (idx : Nat) (hidx : idx = find_insertion_index_loop tracks cyl head 0
      tracks.length tracks.length)
    (A B : ImdTrackInfo) (hBc : B.cyl = cyl) (hBh : B.head = head) :
    TracksSorted ((tracks.take idx ++ [A] ++ tracks.drop idx).set idx B) := by
  have hnone := List.findIdx?_eq_none_iff.mp hfind
  obtain ⟨hge, hle, hbefore, hafter⟩ := fii_loop_spec tracks cyl head hs
    tracks.length 0 tracks.length (by omega) (by omega) (by omega)
    (by intro j hj; omega)
    (by intro j hj hjl; omega)
  rw [← hidx] at hge hle hbefore hafter
  rw [List.append_assoc, List.singleton_append]
  have hset := set_append_cons (tracks.take idx) A (tracks.drop idx) B
  rw [show (tracks.take idx).length = idx from by
    rw [List.length_take]; omega] at hset
  rw [hset]
  unfold TracksSorted
  rw [List.pairwise_append]
  refine ⟨hs.sublist (List.take_sublist idx tracks), ?_, ?_⟩
  · rw [List.pairwise_cons]
    constructor
    · intro b hb
      obtain ⟨k, hk, hbk⟩ := List.mem_iff_getElem.mp hb
      rw [List.getElem_drop _] at hbk
      have hklen : idx + k < tracks.length := by
        rw [List.length_drop] at hk
        omega
      have hna := hafter (idx + k) (by omega) hklen
      rw [getD_lt_eq tracks (idx + k) hklen] at hna
      have hmem : tracks[idx + k] ∈ tracks := List.getElem_mem _
      have hne := hnone _ hmem
      simp only [Bool.and_eq_false_iff, decide_eq_false_iff_not] at hne
      rw [← hbk]
      unfold trackKeyLt
      rw [hBc, hBh]
      unfold InsLt at hna
      rcases hne with hne | hne <;> omega
    · exact hs.sublist (List.drop_sublist idx tracks)
  · intro a ha b hb
    obtain ⟨k, hk, hak⟩ := List.mem_iff_getElem.mp ha
    rw [List.getElem_take _] at hak
    have hkidx : k < idx := by
      rw [List.length_take] at hk
      omega
    have hklen : k < tracks.length := by omega
    rcases List.mem_cons.mp hb with rfl | hb2
    · have hbk := hbefore k hkidx
      rw [getD_lt_eq tracks k hklen] at hbk
      rw [← hak]
      unfold trackKeyLt
      rw [hBc, hBh]
      unfold InsLt at hbk
      omega
    · obtain ⟨m, hm, hbm⟩ := List.mem_iff_getElem.mp hb2
      rw [List.getElem_drop _] at hbm
      have hmlen : idx + m < tracks.length := by
        rw [List.length_drop] at hm
        omega
      have hR := List.pairwise_iff_getElem.mp hs k (idx + m) hklen hmlen
        (by omega)
      rw [← hak, ← hbm]
      exact hR

/-- Claim C5: after every successful imdf_write_track call on an image
whose tracks are strictly sorted by (cylinder, head), the track
sequence is again strictly sorted by (cylinder, head), so in
particular it has no duplicate (cylinder, head) pairs. -/
theorem C5_write_track_sorted (imdf : ImdImageFile)
    (cyl head numSectors sectorSize fillByte : Nat)
    (smap cmap hmap : Option (List Nat)) (out : ImdImageFile)
    (hs : TracksSorted imdf.tracks)
    (hok : imdf_write_track imdf cyl head numSectors sectorSize fillByte
      smap cmap hmap = .ok out) :
    TracksSorted out.tracks := by
  unfold imdf_write_track at hok
  split at hok
  · cases hok
  split at hok
  · cases hok
  split at hok
  · cases hok
  split at hok
  · cases hok
  rename_i code hcode
  cases hfind : find_track_index_internal imdf cyl head with
  | some idx =>
    rw [hfind] at hok
    dsimp only at hok
    unfold find_track_index_internal at hfind
    split at hok
    all_goals split at hok
    all_goals split at hok
    all_goals cases hok
    all_goals dsimp only
    all_goals apply overwrite_sorted_aux imdf.tracks cyl head hs idx hfind <;>
      rfl
  | none =>
    rw [hfind] at hok
    dsimp only at hok
    unfold find_track_index_internal at hfind
    split at hok
    all_goals split at hok
    all_goals split at hok
    all_goals cases hok
    all_goals dsimp only
    all_goals apply insert_sorted_aux imdf.tracks cyl head hs hfind _ rfl <;>
      rfl

set_option maxRecDepth 10000 in
theorem C5_witness :
    TracksSorted exImgC5.tracks ∧
    imdf_write_track exImgC5 0 1 1 128 229 none none none = .ok exImgC5out ∧
    TracksSorted exImgC5out.tracks := by
  have hok : imdf_write_track exImgC5 0 1 1 128 229 none none none =
      .ok exImgC5out := by rfl
  refine ⟨?_, hok, C5_write_track_sorted exImgC5 0 1 1 128 229 none none none
    exImgC5out ?_ hok⟩ <;>
  · unfold TracksSorted
    decide

theorem testBit8_orMask (r : ImdChkResults) (bit : Nat)
    (h : bit.testBit 8 = false) :
    (orMask r bit).checkFailuresMask.testBit 8 =
      r.checkFailuresMask.testBit 8 := by
  unfold orMask
  dsimp only
  rw [Nat.testBit_lor _ bit 8, h, Bool.or_false]

theorem foldl_preserve {α β : Type} (f : β → α → β) (P : β → Prop)
    (hf : ∀ b a, P b → P (f b a)) :
    ∀ (l : List α) (b : β), P b → P (l.foldl f b) := by
  intro l
  induction l with
  | nil => intro b hb; exact hb
  | cons x xs ih =>
    intro b hb
    exact ih (f b x) (hf b x hb)

theorem sflagStep_bit8 (acc : ImdChkResults × Bool × Bool) (flag : Nat) :
    (sflagStep acc flag).1.checkFailuresMask.testBit 8 =
      acc.1.checkFailuresMask.testBit 8 := by
  obtain ⟨rr, de2, dd2⟩ := acc
  unfold sflagStep
  dsimp only
  repeat' split
  all_goals dsimp only
  all_goals repeat rw [testBit8_orMask _ _ (by decide)]

theorem sflagFinish_bit8 (folded : ImdChkResults × Bool × Bool) :
    (sflagFinish folded).checkFailuresMask.testBit 8 =
      folded.1.checkFailuresMask.testBit 8 := by
  unfold sflagFinish
  dsimp only
  repeat' split
  all_goals repeat rw [testBit8_orMask _ _ (by decide)]
  all_goals try rfl

theorem testBit8_sflag_stats (t : ImdTrackInfo) (r : ImdChkResults) :
    (check_sflag_consistency_and_stats_internal t r).checkFailuresMask.testBit 8 =
      r.checkFailuresMask.testBit 8 := by
  unfold check_sflag_consistency_and_stats_internal
  split
  · rfl
  · rw [sflagFinish_bit8]
    exact foldl_preserve sflagStep
      (fun acc => acc.1.checkFailuresMask.testBit 8 =
        r.checkFailuresMask.testBit 8)
      (fun b a hb => by
        show (sflagStep b a).1.checkFailuresMask.testBit 8 = _
        rw [sflagStep_bit8]
        exact hb)
      _ _ rfl

theorem testBit8_smap_check (t : ImdTrackInfo) (r : ImdChkResults) :
    (check_smap_consistency_internal t r).checkFailuresMask.testBit 8 =
      r.checkFailuresMask.testBit 8 := by
  unfold check_smap_consistency_internal
  repeat' split
  all_goals repeat rw [testBit8_orMask _ _ (by decide)]
  all_goals try rfl

theorem chkConstraintsPhase_bit8 (opts : ImdChkOptions) (t : ImdTrackInfo)
    (r0 : ImdChkResults) :
    (chkConstraintsPhase opts t r0).1.checkFailuresMask.testBit 8 =
      r0.checkFailuresMask.testBit 8 := by
  unfold chkConstraintsPhase
  dsimp only
  repeat' split
  all_goals repeat rw [testBit8_orMask _ _ (by decide)]
  all_goals try rfl

theorem chkSummaryPhase_mask (t : ImdTrackInfo) (r3 : ImdChkResults) :
    (chkSummaryPhase t r3).checkFailuresMask = r3.checkFailuresMask := by
  unfold chkSummaryPhase
  dsimp only
  repeat' split
  all_goals rfl

theorem chkSeqPhase_bit8 (opts : ImdChkOptions) (st : ChkState)
    (t : ImdTrackInfo) (r6 : ImdChkResults) :
    (chkSeqPhase opts st t r6).1.checkFailuresMask.testBit 8 =
      (r6.checkFailuresMask.testBit 8 ||
        (!st.firstTrack && seqHeadViolStep st.lastCyl st.lastHead t)) := by
  unfold chkSeqPhase seqHeadViolStep
  cases hft : st.firstTrack with
  | true =>
    rw [if_pos rfl]
    dsimp only
    rw [Bool.not_true, Bool.false_and, Bool.or_false]
  | false =>
    rw [if_neg (by simp)]
    dsimp only
    rw [Bool.not_false, Bool.true_and]
    split
    · rename_i hseq
      rw [hseq, Bool.or_true]
      unfold orMask
      dsimp only
      rw [Nat.testBit_lor, show Nat.testBit CHECK_BIT_SEQ_HEAD_ORDER 8 = true
        from by decide, Bool.or_true]
    · rename_i hseq
      rw [Bool.not_eq_true] at hseq
      rw [hseq, Bool.or_false]
      split
      · rw [testBit8_orMask _ _ (by decide)]
      · rfl

theorem chkSeqPhase_cont_zero (opts : ImdChkOptions) (st : ChkState)
    (t : ImdTrackInfo) (r6 : ImdChkResults) (hmask : opts.errorMask = 0) :
    (chkSeqPhase opts st t r6).2 = false := by
  unfold chkSeqPhase
  rw [hmask]
  split
  · rfl
  · dsimp only
    simp [Nat.zero_and]
theorem imdchkTrackStep_state (opts : ImdChkOptions) (st : ChkState)
    (t : ImdTrackInfo) (hmask : opts.errorMask = 0) :
    (imdchkTrackStep opts st t).results.checkFailuresMask.testBit 8 =
      (st.results.checkFailuresMask.testBit 8 ||
        (!st.firstTrack && seqHeadViolStep st.lastCyl st.lastHead t)) ∧
    (imdchkTrackStep opts st t).lastCyl = t.cyl ∧
    (imdchkTrackStep opts st t).lastHead = t.head ∧
    (imdchkTrackStep opts st t).firstTrack = false := by
  unfold imdchkTrackStep
  rw [hmask]
  dsimp only
  rw [show (decide (((0 : Nat) &&& (CHECK_BIT_CON_CYL ||| CHECK_BIT_CON_HEAD |||
    CHECK_BIT_CON_SECTORS)) ≠ 0)) = false from by decide, Bool.and_false]
  rw [if_neg (by simp)]
  rw [chkSeqPhase_cont_zero opts st t _ hmask]
  rw [if_neg (by simp)]
  rw [show ((0 : Nat) &&& CHECK_BIT_DUPE_SID) = 0 from by decide]
  rw [show ∀ m : Nat, (0 &&& m) = 0 from fun m => Nat.zero_and m]
  rw [if_neg (by simp)]
  dsimp only
  refine ⟨?_, rfl, rfl, rfl⟩
  rw [testBit8_sflag_stats, testBit8_smap_check, chkSeqPhase_bit8]
  rw [show (chkSummaryPhase t (chkConstraintsPhase opts t
    { st.results with trackReadCount := st.results.trackReadCount + 1 }).1).checkFailuresMask
    = _ from chkSummaryPhase_mask t _]
  rw [chkConstraintsPhase_bit8]

theorem imdchk_loop_eq_chkFold (opts : ImdChkOptions) :
    ∀ (fuel : Nat) (s : List Nat) (ts : List ImdTrackInfo) (st : ChkState),
    parseTracksFueled fuel s = some ts →
    imdchk_loop opts fuel s st = chkFold opts ts st := by
  intro fuel
  induction fuel with
  | zero => intro s ts st h; cases h
  | succ fuel ih =>
    intro s ts st h
    unfold parseTracksFueled at h
    unfold imdchk_loop
    cases hr : imd_read_track_header_and_flags s with
    | eof =>
      rw [hr] at h
      injection h with h2
      subst h2
      rfl
    | err e =>
      rw [hr] at h
      cases h
    | ok t rest =>
      rw [hr] at h
      dsimp only at h ⊢
      cases hp : parseTracksFueled fuel rest with
      | none => rw [hp] at h; cases h
      | some ts2 =>
        rw [hp] at h
        dsimp only [Option.map] at h
        injection h with h2
        subst h2
        rw [ih rest ts2 (imdchkTrackStep opts st t) hp]
        rfl

theorem chkFold_bit8 (opts : ImdChkOptions) (hmask : opts.errorMask = 0) :
    ∀ (ts : List ImdTrackInfo) (st : ChkState),
    (chkFold opts ts st).checkFailuresMask.testBit 8 =
      (st.results.checkFailuresMask.testBit 8 ||
        (if st.firstTrack then seqHeadViolList ts
         else seqHeadViolFrom st.lastCyl st.lastHead ts)) := by
  intro ts
  induction ts with
  | nil =>
    intro st
    unfold chkFold seqHeadViolList seqHeadViolFrom
    cases st.firstTrack <;> simp
  | cons t ts ih =>
    intro st
    show (chkFold opts ts (imdchkTrackStep opts st t)).checkFailuresMask.testBit 8 = _
    rw [ih (imdchkTrackStep opts st t)]
    obtain ⟨h1, h2, h3, h4⟩ := imdchkTrackStep_state opts st t hmask
    rw [h1, h2, h3, h4]
    rw [if_neg (by simp)]
    cases hft : st.firstTrack with
    | true =>
      rw [if_pos rfl]
      rw [show seqHeadViolList (t :: ts) = seqHeadViolFrom t.cyl t.head ts
        from rfl]
      rw [Bool.not_true, Bool.false_and, Bool.or_false]
    | false =>
      rw [if_neg (by simp)]
      rw [show seqHeadViolFrom st.lastCyl st.lastHead (t :: ts) =
        (seqHeadViolStep st.lastCyl st.lastHead t ||
          seqHeadViolFrom t.cyl t.head ts) from rfl]
      rw [Bool.not_false, Bool.true_and, Bool.or_assoc]

theorem finalize_bit8 (r : ImdChkResults) :
    (imdchkFinalize r).checkFailuresMask.testBit 8 =
      r.checkFailuresMask.testBit 8 := by
  unfold imdchkFinalize
  repeat' split
  all_goals repeat rw [testBit8_orMask _ _ (by decide)]
  all_goals try rfl

/-- Claim C4 (amended): on a file whose header parses, whose comment
block terminates and whose track records all read successfully, a
scan with an all-clear error mask sets the SeqHeadOrder failure bit
exactly when some successfully-read track other than the first has the
same cylinder as the previous track and a head not exceeding the
previous head, except that a wrap back to head 0 from a nonzero head
is never flagged, whether or not the cylinder advances. -/
theorem C4_seq_head_order_amended (opts : ImdChkOptions) (s s2 : List Nat)
    (ts : List ImdTrackInfo) (res : ImdChkResults)
    (hmask : opts.errorMask = 0)
    (hhdr : (imd_read_file_header_stream s).1 = 0)
    (hcmt : imd_skip_comment_block (imd_read_file_header_stream s).2.2 =
      some s2)
    (hts : parseTracksFueled (s2.length + 1) s2 = some ts)
    (hres : imdchk_check_file s opts = some res) :
    res.checkFailuresMask.testBit 8 = seqHeadViolList ts := by
  unfold imdchk_check_file at hres
  dsimp only at hres
  rw [hhdr] at hres
  rw [if_neg (by simp)] at hres
  rw [hcmt] at hres
  dsimp only at hres
  rw [if_neg (by simp)] at hres
  rw [imdchk_loop_eq_chkFold opts (s2.length + 1) s2 ts _ hts] at hres
  injection hres with h2
  subst h2
  rw [finalize_bit8, chkFold_bit8 opts hmask]
  rw [if_pos rfl]
  rfl

theorem C4_witness :
    c4Opts.errorMask = 0 ∧
    imdchk_check_file c4FileB c4Opts = some c4ResB ∧
    seqHeadViolList c4TsB = true ∧
    c4ResB.checkFailuresMask.testBit 8 = true := by
  have h2 : (imd_read_file_header_stream c4FileB).1 = 0 := by rfl
  have h3 : imd_skip_comment_block (imd_read_file_header_stream c4FileB).2.2 =
      some c4TrackBytesB := by rfl
  have h4 : parseTracksFueled (c4TrackBytesB.length + 1) c4TrackBytesB =
      some c4TsB := by rfl
  have h5 : imdchk_check_file c4FileB c4Opts = some c4ResB := by rfl
  refine ⟨rfl, h5, by rfl, ?_⟩
  rw [C4_seq_head_order_amended c4Opts c4FileB c4TrackBytesB c4TsB c4ResB
    rfl h2 h3 h4 h5]
  rfl


end LibImd

